import Mathlib

/-!
# Verification of svg2pdf.js (src/svg2pdf.js)

A shallow embedding, in Lean 4, of the core algorithms of `src/svg2pdf.js`:
the numeric tokenizer (`parseFloats`), the transform-string interpreter
(`parseTransform`), the smooth-curve control-point derivation
(`getControlPointFromPrevious`), the scoped defs lookup (`getFromDefs`),
the gradient-stop opacity accumulation (`putGradient`), and the node
traversal (`renderNode` / `svgElementToPdf`) over a mutable DOM heap.

Modelling conventions:
* JavaScript numbers are modelled as exact rationals; `NaN` and `undefined`
  are merged into the `none` value of `JsNum := Option Rat` (both are falsy,
  both propagate through arithmetic, and both coerce to `NaN`).  Infinities
  and float rounding are outside the model's domain: no claim below
  exercises them.
* JavaScript strings are Lean `String` / `List Char`; the regexes appearing
  in the source are modelled by hand with JavaScript semantics (leftmost
  match, greedy quantifiers, `.` not matching line terminators).
* `_pdf` (the jsPDF drawing backend) is an external collaborator; following
  the spec's boundary description, its matrix type is six scalars with
  row-vector application `v * M` (exactly the source's own `multVecMatrix`),
  and `matrixMult(A, B)` composes so that `A` acts in the local frame
  established by `B`, i.e. `v * (A ⬝ B) = (v * A) * B`.  Its other
  operations are recorded as emitted drawing operations.
* DOM nodes live in an explicit heap (id → node) so that `cloneNode(true)`
  and the destructive removal of `defs` children are real mutations.
-/

namespace SvgToPdf

/-- A JavaScript number: `none` stands for `NaN`/`undefined` (both falsy,
both propagating through arithmetic), `some q` for the finite value `q`. -/
abbrev JsNum := Option ℚ

/-- JS addition, `NaN` propagating. -/
def jadd : JsNum → JsNum → JsNum
  | some a, some b => some (a + b)
  | _, _ => none

/-- JS subtraction, `NaN` propagating. -/
def jsub : JsNum → JsNum → JsNum
  | some a, some b => some (a - b)
  | _, _ => none

/-- JS multiplication, `NaN` propagating. -/
def jmul : JsNum → JsNum → JsNum
  | some a, some b => some (a * b)
  | _, _ => none

/-- JS unary minus, `NaN` propagating. -/
def jneg : JsNum → JsNum
  | some a => some (-a)
  | none => none

/-- JS division.  Division by zero yields an infinity in JavaScript, which is
outside this model's domain; it is mapped to `none` (no claim exercises it). -/
def jdiv : JsNum → JsNum → JsNum
  | some a, some b => if b = 0 then none else some (a / b)
  | _, _ => none

/-- JS absolute value (`Math.abs`), `NaN` propagating. -/
def jabs : JsNum → JsNum
  | some a => some |a|
  | none => none

/-- JS truthiness of a number: `0`, `NaN` and `undefined` are falsy. -/
def jsTruthy : JsNum → Bool
  | none => false
  | some q => q != 0

/-- JS `x || y` on numbers: `y` when `x` is falsy. -/
def jsOrNum (x y : JsNum) : JsNum := if jsTruthy x then x else y

/-- JS `x > 0` (false when `x` is `NaN`/`undefined`). -/
def jgtZero : JsNum → Bool
  | some a => 0 < a
  | none => false

/-- Whitespace characters recognized by `\s`, `trim` and `parseFloat`
(the ASCII ones; the claims' inputs contain no exotic Unicode spaces). -/
def isWs (c : Char) : Bool :=
  c = ' ' || c = '\t' || c = '\n' || c = '\r' || c = '\x0b' || c = '\x0c'

/-- Decimal digit test (`\d` and the digits accepted by `parseFloat`). -/
def isDigit (c : Char) : Bool := '0' ≤ c ∧ c ≤ '9'

/-- JS `\w` word characters. -/
def isWord (c : Char) : Bool :=
  isDigit c || ('a' ≤ c ∧ c ≤ 'z') || ('A' ≤ c ∧ c ≤ 'Z') || c = '_'

/-- Numeric value of a decimal digit string. -/
def digitsVal (ds : List Char) : Nat :=
  ds.foldl (fun a c => 10 * a + (c.toNat - 48)) 0

/-- The exponent part accepted by `parseFloat` after the mantissa:
`[eE][+-]?\d+`, ignored (exponent 0) when absent or incomplete. -/
def floatExpPart (cs : List Char) : Int :=
  match cs with
  | c :: rest =>
    if c = 'e' ∨ c = 'E' then
      match rest with
      | '+' :: ds => if (ds.takeWhile isDigit) ≠ [] then (digitsVal (ds.takeWhile isDigit) : Int) else 0
      | '-' :: ds => if (ds.takeWhile isDigit) ≠ [] then -(digitsVal (ds.takeWhile isDigit) : Int) else 0
      | ds => if (ds.takeWhile isDigit) ≠ [] then (digitsVal (ds.takeWhile isDigit) : Int) else 0
    else 0
  | [] => 0

/-- Mantissa and exponent of the longest float literal prefix of `cs`
(sign already stripped): returns `none` when no digits are found.
`parseFloat` accepts `\d*\.?\d*` with at least one digit, then an optional
exponent. -/
def floatMantissa (cs : List Char) : Option ℚ :=
  let ip := cs.takeWhile isDigit
  let r1 := cs.drop ip.length
  let (fp, r2) :=
    match r1 with
    | '.' :: rest => (rest.takeWhile isDigit, rest.drop (rest.takeWhile isDigit).length)
    | _ => ([], r1)
  if ip = [] ∧ fp = [] then none
  else
    let m : ℚ := (digitsVal ip : ℚ) + (digitsVal fp : ℚ) / (10 : ℚ) ^ fp.length
    let e : Int := floatExpPart r2
    some (m * (10 : ℚ) ^ e)

/-- JS `parseFloat` on a character list: skip leading whitespace, optional
sign, longest valid float-literal prefix; `NaN` (`none`) when no prefix
parses.  (`Infinity` literals are outside the model's domain.) -/
def jsParseFloatL (cs : List Char) : JsNum :=
  let cs := cs.dropWhile isWs
  match cs with
  | '-' :: rest => (floatMantissa rest).map (fun q => -q)
  | '+' :: rest => floatMantissa rest
  | _ => floatMantissa cs

/-- JS `parseFloat` on a string. -/
def jsParseFloat (s : String) : JsNum := jsParseFloatL s.toList

/-- Whole-string float literal (mantissa with optional exponent), rejecting
any trailing garbage; helper for the `ToNumber` coercion. -/
def floatMantissaAll (cs : List Char) : Option ℚ :=
  let ip := cs.takeWhile isDigit
  let r1 := cs.drop ip.length
  let (fp, r2) :=
    match r1 with
    | '.' :: rest => (rest.takeWhile isDigit, rest.drop (rest.takeWhile isDigit).length)
    | _ => ([], r1)
  if ip = [] ∧ fp = [] then none
  else
    let m : ℚ := (digitsVal ip : ℚ) + (digitsVal fp : ℚ) / (10 : ℚ) ^ fp.length
    match r2 with
    | [] => some m
    | 'e' :: '+' :: ds => if ds ≠ [] ∧ ds.all isDigit then some (m * (10:ℚ) ^ (digitsVal ds : Int)) else none
    | 'e' :: '-' :: ds => if ds ≠ [] ∧ ds.all isDigit then some (m * (10:ℚ) ^ (-(digitsVal ds : Int))) else none
    | 'e' :: ds => if ds ≠ [] ∧ ds.all isDigit then some (m * (10:ℚ) ^ (digitsVal ds : Int)) else none
    | 'E' :: '+' :: ds => if ds ≠ [] ∧ ds.all isDigit then some (m * (10:ℚ) ^ (digitsVal ds : Int)) else none
    | 'E' :: '-' :: ds => if ds ≠ [] ∧ ds.all isDigit then some (m * (10:ℚ) ^ (-(digitsVal ds : Int))) else none
    | 'E' :: ds => if ds ≠ [] ∧ ds.all isDigit then some (m * (10:ℚ) ^ (digitsVal ds : Int)) else none
    | _ => none

/-- JS `ToNumber` on a string (used by the `==`/`!=`, `-` and `>` coercions
in the source): trims; empty becomes `0`; otherwise the entire string must
be a float literal (hex and `Infinity` literals are outside the model's
domain). -/
def jsToNumber (s : String) : JsNum :=
  let cs := (s.toList.dropWhile isWs).reverse.dropWhile isWs |>.reverse
  match cs with
  | [] => some 0
  | '-' :: rest => (floatMantissaAll rest).map (fun q => -q)
  | '+' :: rest => floatMantissaAll rest
  | _ => floatMantissaAll cs

/-- The global replacement of regex `[^eE]-` by `" -"` performed first by
`parseFloats`: every two-character occurrence of a non-`e`/`E` character
followed by `-` is replaced (both characters) by `" -"`, scanning left to
right without overlap.  Note that this *replaces* the character preceding
the minus sign by a space. -/
def replaceDashes : List Char → List Char
  | c1 :: '-' :: rest =>
    if c1 ≠ 'e' ∧ c1 ≠ 'E' then ' ' :: '-' :: replaceDashes rest
    else c1 :: replaceDashes ('-' :: rest)
  | c :: rest => c :: replaceDashes rest
  | [] => []

/-- JS `String.prototype.trim`. -/
def jsTrim (cs : List Char) : List Char :=
  (cs.dropWhile isWs).reverse.dropWhile isWs |>.reverse

/-- Length bound for `dropWhile`, used for termination of the tokenizer. -/
theorem dropWhileLen (p : Char → Bool) (l : List Char) :
    (l.dropWhile p).length ≤ l.length := by
  induction l with
  | nil => simp [List.dropWhile]
  | cons a t ih =>
    simp only [List.dropWhile]
    split
    · exact Nat.le_succ_of_le ih
    · simp

/-- `split(/\s*\s|,\s*/)`: at each position the regex matches either a
maximal whitespace run (alternative `\s*\s`) or a comma followed by
trailing whitespace (alternative `,\s*`); the pieces between matches are
the tokens (JS `split` keeps empty pieces). -/
def splitTokens : List Char → List Char → List (List Char)
  | [], acc => [acc.reverse]
  | c :: rest, acc =>
    if isWs c then acc.reverse :: splitTokens (rest.dropWhile isWs) []
    else if c = ',' then acc.reverse :: splitTokens (rest.dropWhile isWs) []
    else splitTokens rest (c :: acc)
termination_by cs _ => cs.length
decreasing_by
  · exact Nat.lt_succ_of_le (dropWhileLen isWs rest)
  · exact Nat.lt_succ_of_le (dropWhileLen isWs rest)
  · exact Nat.lt_succ_self _

/-- `parseFloats` (src/svg2pdf.js lines 278-280): replace every occurrence
of regex `[^eE]-` by `" -"`, trim, split at regex `\s*\s|,\s*`, and map
`parseFloat` over the tokens. -/
def parseFloats (s : String) : List JsNum :=
  (splitTokens (jsTrim (replaceDashes s.toList)) []).map jsParseFloatL

/-- C5, theorem at the failing input.  The tokenizer's first step replaces
every occurrence of the regex `[^eE]-` by the two-character string `" -"`,
which *deletes the character preceding the minus sign*: `"10-5"` becomes
`"1 -5"` and parses to `[1, -5]`, not `[10, -5]` as the claim states, so a
minus sign adjoining a digit does alter the preceding number's value.
Comma- and whitespace-separated lists, and exponents (`[^eE]` guard), do
work as claimed. -/
theorem c5_minus_split_eats_digit :
    parseFloats "10-5" = [some 1, some (-5)] ∧
    parseFloats "10 -5" = [some 10, some (-5)] ∧
    parseFloats "10,-5" = [some 10, some (-5)] ∧
    parseFloats "1e-5" = [some (1 / 100000)] := by
  refine ⟨?_, ?_, ?_, ?_⟩ <;>
    simp +decide [parseFloats, replaceDashes, jsTrim, splitTokens, jsParseFloatL,
      floatMantissa, floatExpPart, digitsVal, isWs, isDigit] <;>
    norm_num

/-- `parseFloats` on a character list (the transform-function argument
groups are character lists). -/
def parseFloatsL (cs : List Char) : List JsNum :=
  (splitTokens (jsTrim (replaceDashes cs)) []).map jsParseFloatL

/-- `m[i]` on the result of `parseFloats`: out-of-range access yields
`undefined`, merged with `NaN` into `none`. -/
def idx (m : List JsNum) (i : Nat) : JsNum := m.getD i none

/-- The jsPDF affine matrix (external collaborator, modelled from the
spec's boundary description in section 3): six scalars `(a,b,c,d,e,f)`
acting on row vectors. -/
structure Mat where
  a : JsNum
  b : JsNum
  c : JsNum
  d : JsNum
  e : JsNum
  f : JsNum
deriving DecidableEq, Repr

/-- `_pdf.unitMatrix`. -/
def unitMatrix : Mat := ⟨some 1, some 0, some 0, some 1, some 0, some 0⟩

/-- `multVecMatrix` (src/svg2pdf.js lines 283-290): row-vector times
matrix, `(a*x + c*y + e, b*x + d*y + f)`. -/
def multVecMatrix (v : JsNum × JsNum) (m : Mat) : JsNum × JsNum :=
  (jadd (jadd (jmul m.a v.1) (jmul m.c v.2)) m.e,
   jadd (jadd (jmul m.b v.1) (jmul m.d v.2)) m.f)

/-- `_pdf.matrixMult(A, B)`.  Modelled from the spec: jsPDF is the external
backend; per section 3, composing `A` onto accumulated `B` makes `A` act in
the local frame established by `B`, i.e. for every row vector
`v * (matrixMult A B) = (v * A) * B`.  This is consistent with the source's
own `multVecMatrix` convention. -/
def matrixMult (A B : Mat) : Mat :=
  ⟨jadd (jmul A.a B.a) (jmul A.b B.c),
   jadd (jmul A.a B.b) (jmul A.b B.d),
   jadd (jmul A.c B.a) (jmul A.d B.c),
   jadd (jmul A.c B.b) (jmul A.d B.d),
   jadd (jadd (jmul A.e B.a) (jmul A.f B.c)) B.e,
   jadd (jadd (jmul A.e B.b) (jmul A.f B.d)) B.f⟩

/-- Greedy match of the regex fragment `(.+)\)` against a prefix of `r`
(JS semantics: `.` does not match line terminators, `+` is greedy):
the group runs to the *last* `)` whose preceding characters are free of
line terminators; `none` when no such `)` at index ≥ 1 exists. -/
def greedyGroup (r : List Char) : Option (List Char × List Char) :=
  let pre := r.takeWhile (fun c => c ≠ '\n' ∧ c ≠ '\r')
  match pre.reverse.findIdx? (· = ')') with
  | some i =>
    let k := pre.length - 1 - i
    if 1 ≤ k then some (pre.take k, r.drop (k + 1)) else none
  | none => none

/-- JS `RegExp.exec` for a pattern of the shape `name\((.+)\)`: scan for
the leftmost start position where the full pattern matches (the scan
resumes one character further when the literal prefix matches but the
group does not); returns `(match0, group1)`. -/
def execFunc (name : List Char) : List Char → Option (List Char × List Char)
  | [] => none
  | c :: rest =>
    if (name ++ ['(']).isPrefixOf (c :: rest) then
      match greedyGroup ((c :: rest).drop (name.length + 1)) with
      | some (g, _) => some (name ++ '(' :: (g ++ [')']), g)
      | none => execFunc name rest
    else execFunc name rest

/-- JS `String.replace` with a plain-string pattern: replace the first
occurrence of `pat` by the empty string (no occurrence: unchanged). -/
def strReplaceFirst : List Char → List Char → List Char
  | [], _ => []
  | c :: rest, pat =>
    if pat.isPrefixOf (c :: rest) then (c :: rest).drop pat.length
    else c :: strReplaceFirst rest pat

/-- The trigonometric oracles of the JS `Math` object (external): `cosd d`
and `sind d` stand for `Math.cos(Math.PI * d / 180)` and
`Math.sin(Math.PI * d / 180)` on the already-parsed degree value `d`;
`tanr x` stands for `Math.tan(x)` on the raw value `x` (the source does
not convert skew angles to radians).  All are `NaN`-propagating. -/
structure Trig where
  cosd : JsNum → JsNum
  sind : JsNum → JsNum
  tanr : JsNum → JsNum

/-- The `matrix(...)` branch of `parseTransform` (src lines 229-234). -/
def matrixBranch (m : List JsNum) (acc : Mat) : Mat :=
  matrixMult ⟨idx m 0, idx m 1, idx m 2, idx m 3, idx m 4, idx m 5⟩ acc

/-- The `rotate(...)` branch of `parseTransform` (src lines 235-246): the
rotation is composed onto the accumulator, and only when *both* optional
pivot coordinates are truthy (present, non-`NaN` and nonzero) is the
result wrapped between the two pivot translations. -/
def rotateBranch (tg : Trig) (m : List JsNum) (acc : Mat) : Mat :=
  let cA := tg.cosd (idx m 0)
  let sA := tg.sind (idx m 0)
  let acc1 := matrixMult ⟨cA, sA, jneg sA, cA, some 0, some 0⟩ acc
  if jsTruthy (idx m 1) && jsTruthy (idx m 2) then
    let t1 : Mat := ⟨some 1, some 0, some 0, some 1, idx m 1, idx m 2⟩
    let t2 : Mat := ⟨some 1, some 0, some 0, some 1, jneg (idx m 1), jneg (idx m 2)⟩
    matrixMult t2 (matrixMult acc1 t1)
  else acc1

/-- The `translate(...)` branch of `parseTransform` (src lines 247-252). -/
def translateBranch (m : List JsNum) (acc : Mat) : Mat :=
  matrixMult ⟨some 1, some 0, some 0, some 1, idx m 0, jsOrNum (idx m 1) (some 0)⟩ acc

/-- The `scale(...)` branch of `parseTransform` (src lines 253-260):
a falsy second argument is replaced by the first. -/
def scaleBranch (m : List JsNum) (acc : Mat) : Mat :=
  let s1 := if jsTruthy (idx m 1) then idx m 1 else idx m 0
  matrixMult ⟨idx m 0, some 0, some 0, s1, some 0, some 0⟩ acc

/-- The `skewX(...)` branch of `parseTransform` (src lines 261-266); note
the source applies `parseFloat` (not `parseFloats`) to the whole group. -/
def skewXBranch (tg : Trig) (v : JsNum) (acc : Mat) : Mat :=
  matrixMult ⟨some 1, some 0, tg.tanr v, some 1, some 0, some 0⟩ acc

/-- The `skewY(...)` branch of `parseTransform` (src lines 267-272). -/
def skewYBranch (tg : Trig) (v : JsNum) (acc : Mat) : Mat :=
  matrixMult ⟨some 1, tg.tanr v, some 0, some 1, some 0, some 0⟩ acc

/-- One iteration of the `while (transformString.length > 0)` body of
`parseTransform` (src lines 228-273): each of the six function regexes is
tried in source order against the *current remaining* string; on a match
the parsed matrix is composed onto the accumulator and the matched text is
removed from the string. -/
def stepTransform (tg : Trig) (s : List Char) (acc : Mat) : List Char × Mat :=
  let (s, acc) :=
    match execFunc "matrix".toList s with
    | some (m0, g) => (strReplaceFirst s m0, matrixBranch (parseFloatsL g) acc)
    | none => (s, acc)
  let (s, acc) :=
    match execFunc "rotate".toList s with
    | some (m0, g) => (strReplaceFirst s m0, rotateBranch tg (parseFloatsL g) acc)
    | none => (s, acc)
  let (s, acc) :=
    match execFunc "translate".toList s with
    | some (m0, g) => (strReplaceFirst s m0, translateBranch (parseFloatsL g) acc)
    | none => (s, acc)
  let (s, acc) :=
    match execFunc "scale".toList s with
    | some (m0, g) => (strReplaceFirst s m0, scaleBranch (parseFloatsL g) acc)
    | none => (s, acc)
  let (s, acc) :=
    match execFunc "skewX".toList s with
    | some (m0, g) => (strReplaceFirst s m0, skewXBranch tg (jsParseFloatL g) acc)
    | none => (s, acc)
  let (s, acc) :=
    match execFunc "skewY".toList s with
    | some (m0, g) => (strReplaceFirst s m0, skewYBranch tg (jsParseFloatL g) acc)
    | none => (s, acc)
  (s, acc)

/-- The `while (transformString.length > 0)` loop of `parseTransform`,
made total by a fuel parameter: `none` means the loop has not terminated
within `fuel` iterations.  (The source loop genuinely never terminates on
some inputs; see the claim C2 theorems.) -/
def parseTransformLoop (tg : Trig) : Nat → List Char → Mat → Option Mat
  | _, [], acc => some acc
  | 0, _ :: _, _ => none
  | fuel + 1, c :: rest, acc =>
    let (s', acc') := stepTransform tg (c :: rest) acc
    parseTransformLoop tg fuel s' acc'

/-- `parseTransform` (src/svg2pdf.js lines 215-275): a falsy (absent or
empty) transform string yields the unit matrix; otherwise the loop is run
with the given fuel. -/
def parseTransform (tg : Trig) (fuel : Nat) (ts : Option String) : Option Mat :=
  match ts with
  | none => some unitMatrix
  | some str =>
    if str = "" then some unitMatrix
    else parseTransformLoop tg fuel str.toList unitMatrix

/-- A trig oracle with no exact values; the claims about `translate` and
`scale` never consult it. -/
def noTrig : Trig := ⟨fun _ => none, fun _ => none, fun _ => none⟩

/-- A trig oracle that is exact at 90 degrees (the "within epsilon" reading
of the claims: `Math.cos(Math.PI * 90 / 180) ≈ 0`, `sin ≈ 1`). -/
def trig90 : Trig :=
  ⟨fun d => if d = some 90 then some 0 else none,
   fun d => if d = some 90 then some 1 else none,
   fun _ => none⟩

/-- C1, theorem at the failing input.  The greedy regex
`translate\((.+)\)` matches up to the *last* closing parenthesis of
`"translate(10,0) scale(2)"`, so the whole string (including
`" scale(2)"`) is consumed as the translate arguments.  The parsed floats
are `[10, 0, NaN]`, the result is the plain translation `(10, 0)`, and the
point `(1,0)` is mapped to `(11,0)` — not `(12,0)` as the claim states.
The scale function is dropped entirely. -/
theorem c1_greedy_translate_swallows_scale :
    parseTransform noTrig 9 (some "translate(10,0) scale(2)") =
      some ⟨some 1, some 0, some 0, some 1, some 10, some 0⟩ ∧
    multVecMatrix (some 1, some 0) ⟨some 1, some 0, some 0, some 1, some 10, some 0⟩ =
      (some 11, some 0) := by
  constructor
  · simp +decide [parseTransform, parseTransformLoop, stepTransform, parseFloatsL,
      replaceDashes, jsTrim, splitTokens, jsParseFloatL, floatMantissa,
      floatExpPart, digitsVal, execFunc, greedyGroup, strReplaceFirst,
      List.isPrefixOf, translateBranch, matrixBranch, scaleBranch, matrixMult,
      idx, jadd, jmul, jsOrNum, jsTruthy, unitMatrix]
  · simp [multVecMatrix, jadd, jmul]
    norm_num

/-- C2, theorem at the failing input.  On a string that contains an
unrecognized token (here `"foo"`), no regex ever matches, the string is
never shortened, and the `while (transformString.length > 0)` loop runs
forever: for every fuel bound the loop is still running.  Unknown tokens
are not "ignored" — they hang the parser. -/
theorem c2_unknown_token_hangs :
    ∀ (tg : Trig) (fuel : Nat), parseTransform tg fuel (some "foo") = none := by
  have hstep : ∀ (tg : Trig) (acc : Mat),
      stepTransform tg ("foo".toList) acc = ("foo".toList, acc) := by
    intro tg acc
    simp +decide [stepTransform, execFunc, greedyGroup, List.isPrefixOf]
  intro tg fuel
  show parseTransformLoop tg fuel "foo".toList unitMatrix = none
  generalize unitMatrix = acc
  induction fuel generalizing acc with
  | zero => rfl
  | succ n ih =>
    show parseTransformLoop tg n (stepTransform tg "foo".toList acc).1
        (stepTransform tg "foo".toList acc).2 = none
    rw [hstep tg acc]
    exact ih acc

/-- Claim C7's pivot composition, modelled from the spec's words:
`translate(cx,cy) ∘ rotate(deg) ∘ translate(−cx,−cy)` as function
composition (the right-most function acts first), expressed with the
apply-first-argument-then-second `matrixMult`. -/
def pivotRotation (cA sA cx cy : JsNum) : Mat :=
  matrixMult ⟨some 1, some 0, some 0, some 1, jneg cx, jneg cy⟩
    (matrixMult ⟨cA, sA, jneg sA, cA, some 0, some 0⟩
      ⟨some 1, some 0, some 0, some 1, cx, cy⟩)

/-- C7 counterexample: for the pivot `(0,1)` the claim fails.  The source
guards the pivot wrapping by the JS truthiness test `m[1] && m[2]`
(line 240), so a zero pivot coordinate disables the wrapping entirely:
`rotate(90,0,1)` parses to the pure rotation, which fixes the origin,
while the claimed composition `translate(0,1) ∘ rotate(90) ∘
translate(0,−1)` moves the origin to `(1,1)`. -/
theorem c7_counterexample_zero_pivot :
    parseTransform trig90 9 (some "rotate(90,0,1)") =
      some ⟨some 0, some 1, some (-1), some 0, some 0, some 0⟩ ∧
    multVecMatrix (some 0, some 0) ⟨some 0, some 1, some (-1), some 0, some 0, some 0⟩ =
      (some 0, some 0) ∧
    multVecMatrix (some 0, some 0) (pivotRotation (some 0) (some 1) (some 0) (some 1)) =
      (some 1, some 1) := by
  refine ⟨?_, ?_, ?_⟩
  · simp +decide [parseTransform, parseTransformLoop, stepTransform, parseFloatsL,
      replaceDashes, jsTrim, splitTokens, jsParseFloatL, floatMantissa,
      floatExpPart, digitsVal, execFunc, greedyGroup, strReplaceFirst,
      List.isPrefixOf, rotateBranch, matrixBranch, matrixMult, trig90,
      idx, jadd, jmul, jneg, jsOrNum, jsTruthy, unitMatrix]
  · simp [multVecMatrix, jadd, jmul]
  · simp [pivotRotation, multVecMatrix, matrixMult, jadd, jmul, jneg]

/-- C7 as amended: for every parsed `rotate` argument list whose two pivot
coordinates are *truthy* (present, non-`NaN`, nonzero) and whose angle has
well-defined cosine and sine, the matrix built by the rotate branch of
`parseTransform` (over a fresh accumulator) equals the claimed composition
`translate(cx,cy) ∘ rotate(deg) ∘ translate(−cx,−cy)`; when either pivot
coordinate is `0`, `NaN` or missing, the pivot wrapping is skipped and the
result is the pure rotation about the origin. -/
theorem c7_rotate_pivot (tg : Trig) (m : List JsNum)
    (h1 : jsTruthy (idx m 1) = true) (h2 : jsTruthy (idx m 2) = true)
    (h3 : (tg.cosd (idx m 0)).isSome) (h4 : (tg.sind (idx m 0)).isSome) :
    rotateBranch tg m unitMatrix =
      pivotRotation (tg.cosd (idx m 0)) (tg.sind (idx m 0)) (idx m 1) (idx m 2) := by
  obtain ⟨cv, hc⟩ := Option.isSome_iff_exists.mp h3
  obtain ⟨sv, hs⟩ := Option.isSome_iff_exists.mp h4
  simp only [rotateBranch, h1, h2, Bool.and_self, if_pos, pivotRotation, hc, hs]
  have hR : matrixMult ⟨some cv, some sv, jneg (some sv), some cv, some 0, some 0⟩ unitMatrix =
      ⟨some cv, some sv, jneg (some sv), some cv, some 0, some 0⟩ := by
    simp [matrixMult, unitMatrix, jadd, jmul, jneg]
  rw [hR]

/-- C7 witness: the amended theorem applied at the spec's own example
`rotate(90,1,1)` (with the exact trig oracle), together with the claimed
evaluation: the resulting matrix maps `(1,0)` to `(2,1)`. -/
theorem c7_rotate_pivot_witness :
    rotateBranch trig90 [some 90, some 1, some 1] unitMatrix =
      pivotRotation (some 0) (some 1) (some 1) (some 1) ∧
    multVecMatrix (some 1, some 0)
        (pivotRotation (some 0) (some 1) (some 1) (some 1)) = (some 2, some 1) := by
  constructor
  · have h := c7_rotate_pivot trig90 [some 90, some 1, some 1]
      (by decide) (by decide) (by simp [trig90, idx]) (by simp [trig90, idx])
    simpa [trig90, idx] using h
  · simp [pivotRotation, multVecMatrix, matrixMult, jadd, jmul, jneg]
    norm_num

/-! ## Path segments and smooth-curve control points -/

/-- A 2D point as used by the source (`[x, y]` arrays of JS numbers). -/
abbrev Pt := JsNum × JsNum

/-- `mirrorPoint` (src lines 91-96): mirrors `p1` at `p2`. -/
def mirrorPoint (p1 p2 : Pt) : Pt :=
  let dx := jsub p2.1 p1.1
  let dy := jsub p2.2 p1.2
  (jadd p1.1 (jmul (some 2) dx), jadd p1.2 (jmul (some 2) dy))

/-- `toCubic` (src lines 99-101): `from + (2/3) * (to - from)` per
coordinate. -/
def toCubic (p q : Pt) : Pt :=
  (jadd (jmul (some (2/3)) (jsub q.1 p.1)) p.1,
   jadd (jmul (some (2/3)) (jsub q.2 p.2)) p.2)

/-- A parsed path segment as produced by `getPathSegList`: the command
letter plus the coordinate fields that the corresponding command populates
(all others remain `undefined`, i.e. `none`). -/
structure Seg where
  letter : Char
  x : JsNum := none
  y : JsNum := none
  x1 : JsNum := none
  y1 : JsNum := none
  x2 : JsNum := none
  y2 : JsNum := none
deriving DecidableEq, Repr

/-- `getControlPointFromPrevious` (src lines 104-115): the implicit first
control point for a smooth segment (`s`, `S`, `t`, `T`) at index `i`.  The
source mirrors the previous segment's second control point about the
current point (`p0`) exactly when the previous segment's letter is one of
`C`, `S` (absolute) or `c`, `s` (relative, absolutized via `prevX`/`prevY`)
— the quadratic family `Q`/`T`/`q`/`t` is never consulted.  (When `i > 0`
but `i - 1` is out of range the source would fault; call sites keep
`i < list.length`, and the model returns the current point there.) -/
def getControlPointFromPrevious (i : Nat) (p0 : Pt) (list : List Seg)
    (prevX prevY : JsNum) : Pt :=
  if 0 < i then
    match list[i - 1]? with
    | some prev =>
      if prev.letter = 'C' ∨ prev.letter = 'S' then
        mirrorPoint (prev.x2, prev.y2) p0
      else if prev.letter = 'c' ∨ prev.letter = 's' then
        mirrorPoint (jadd prev.x2 prevX, jadd prev.y2 prevY) p0
      else p0
    | none => p0
  else p0

/-- The segment list of the path `M0,0 Q5,10 10,0 T20,0` from index 1 on:
a `Q` segment followed by a `T` segment. -/
def qtList : List Seg :=
  [{ letter := 'Q', x := some 10, y := some 0, x1 := some 5, y1 := some 10 },
   { letter := 'T', x := some 20, y := some 0 }]

/-- C3 counterexample: a `T` segment whose predecessor is a same-family
curve (`Q`).  The claim says the implicit control point is the reflection
of the predecessor's control point `(5,10)` about the current point
`(10,0)`, i.e. `(15,-10)`; the source's `getControlPointFromPrevious`
checks only for `C`/`S`/`c`/`s` predecessors and returns the current point
`(10,0)`. -/
theorem c3_counterexample_T_after_Q :
    getControlPointFromPrevious 1 (some 10, some 0) qtList (some 0) (some 0) =
      (some 10, some 0) ∧
    mirrorPoint (some 5, some 10) (some 10, some 0) = (some 15, some (-10)) ∧
    ((some 10, some 0) : Pt) ≠ (some 15, some (-10)) := by
  refine ⟨?_, ?_, ?_⟩
  · simp +decide [getControlPointFromPrevious, qtList]
  · simp [mirrorPoint, jadd, jsub, jmul]
    norm_num
  · simp

/-- C3 as amended: for every segment list and index, the implicit first
control point computed by `getControlPointFromPrevious` is the reflection
of the previous segment's (absolutized) second control point about the
current point exactly when the previous segment is a *cubic-family*
command (`C`, `S`, `c` or `s`) — regardless of whether the smooth segment
itself is `S`/`s` or `T`/`t`; in every other case (index 0, or any other
predecessor, including the quadratic family `Q`/`T`/`q`/`t`) it is the
current point. -/
theorem c3_control_point_cubic_family_only (i : Nat) (p0 : Pt) (list : List Seg)
    (prevX prevY : JsNum) :
    (∀ prev, 0 < i → list[i - 1]? = some prev →
      prev.letter = 'C' ∨ prev.letter = 'S' →
      getControlPointFromPrevious i p0 list prevX prevY =
        mirrorPoint (prev.x2, prev.y2) p0) ∧
    (∀ prev, 0 < i → list[i - 1]? = some prev →
      prev.letter = 'c' ∨ prev.letter = 's' →
      getControlPointFromPrevious i p0 list prevX prevY =
        mirrorPoint (jadd prev.x2 prevX, jadd prev.y2 prevY) p0) ∧
    (∀ prev, 0 < i → list[i - 1]? = some prev →
      ¬(prev.letter = 'C' ∨ prev.letter = 'S' ∨ prev.letter = 'c' ∨ prev.letter = 's') →
      getControlPointFromPrevious i p0 list prevX prevY = p0) ∧
    (i = 0 → getControlPointFromPrevious i p0 list prevX prevY = p0) := by
  refine ⟨?_, ?_, ?_, ?_⟩
  · intro prev hi hget hcs
    simp only [getControlPointFromPrevious, if_pos hi, hget]
    rw [if_pos hcs]
  · intro prev hi hget hcs
    have hnotCS : ¬(prev.letter = 'C' ∨ prev.letter = 'S') := by
      rcases hcs with h | h <;> simp [h]
    simp only [getControlPointFromPrevious, if_pos hi, hget]
    rw [if_neg hnotCS, if_pos hcs]
  · intro prev hi hget hno
    push_neg at hno
    obtain ⟨n1, n2, n3, n4⟩ := hno
    simp only [getControlPointFromPrevious, if_pos hi, hget]
    rw [if_neg (by simp [n1, n2]), if_neg (by simp [n3, n4])]
  · intro hi
    subst hi
    simp [getControlPointFromPrevious]

/-- The first segment (`C1,2 4,6 10,0`) of the witness list below. -/
def cSeg : Seg :=
  { letter := 'C', x := some 10, y := some 0, x1 := some 1, y1 := some 2,
    x2 := some 4, y2 := some 6 }

/-- The segment list of the path `M0,0 C1,2 4,6 10,0 S16,-6 20,0`
from index 1 on: a `C` segment followed by an `S` segment. -/
def csList : List Seg :=
  [cSeg, { letter := 'S', x := some 20, y := some 0, x2 := some 16, y2 := some (-6) }]

/-- C3 witness: the amended theorem applied at a concrete `S`-after-`C`
situation: the control point is the reflection of `(4,6)` about `(10,0)`. -/
theorem c3_control_point_witness :
    getControlPointFromPrevious 1 (some 10, some 0) csList (some 0) (some 0) =
      mirrorPoint (cSeg.x2, cSeg.y2) (some 10, some 0) := by
  exact (c3_control_point_cubic_family_only 1 (some 10, some 0) csList
      (some 0) (some 0)).1 cSeg (by decide) (by simp [csList]) (Or.inl (by simp [cSeg]))

/-! ## Scoped defs lookup (`SvgPrefix` / `getFromDefs`) -/

/-- Leftmost match of the regex `_\d+_` in `s`: returns the text before
the match and the text after it, or `none` when the regex does not match.
(At a `_`, the greedy digit run is maximal; a shorter run cannot help
since it would be followed by a digit, not `_`.) -/
def findPatSplit : List Char → Option (List Char × List Char)
  | [] => none
  | c :: rest =>
    if c = '_' ∧ rest.takeWhile isDigit ≠ [] ∧
        (rest.drop (rest.takeWhile isDigit).length).head? = some '_' then
      some ([], rest.drop ((rest.takeWhile isDigit).length + 1))
    else
      match findPatSplit rest with
      | some (b, a) => some (c :: b, a)
      | none => none

/-- Removing a `_\d+_` match strictly shortens the string. -/
theorem findPatSplit_lt : ∀ (s b a : List Char),
    findPatSplit s = some (b, a) → b.length + a.length < s.length := by
  intro s
  induction s with
  | nil => intro b a h; simp [findPatSplit] at h
  | cons c rest ih =>
    intro b a h
    simp only [findPatSplit] at h
    split at h
    · cases h
      have hle : (rest.drop ((rest.takeWhile isDigit).length + 1)).length ≤ rest.length := by
        rw [List.length_drop]; exact Nat.sub_le _ _
      simp only [List.length_nil, List.length_cons]
      omega
    · split at h
      · rename_i b' a' heq
        cases h
        have := ih _ _ heq
        simp only [List.length_cons]
        omega
      · cases h

/-- JS object property lookup on the defs map (keys are scoped ids,
values stand for the registered definition nodes). -/
def lookupDefs (defs : List (List Char × Nat)) (id : List Char) : Option Nat :=
  match defs with
  | [] => none
  | (k, v) :: rest => if k = id then some v else lookupDefs rest id

/-- `getFromDefs` (src lines 130-136): look the id up; while the lookup
fails and the id still contains a `_\d+_` fragment, remove the leftmost
such fragment and retry; return the final lookup result. -/
def getFromDefs (defs : List (List Char × Nat)) (id : List Char) : Option Nat :=
  if (lookupDefs defs id).isSome then lookupDefs defs id
  else
    match h : findPatSplit id with
    | some (b, a) => getFromDefs defs (b ++ a)
    | none => lookupDefs defs id
termination_by id.length
decreasing_by
  simp only [List.length_append]
  exact findPatSplit_lt id b a h

/-- A scope-prefix segment as generated by `SvgPrefix.nextChild`
(src lines 118-127): `"_" + k + "_"` for a decimal counter value `k`;
a scope's full prefix is the concatenation of its segments, innermost
first. -/
def scopeStr (segs : List (List Char)) : List Char :=
  (segs.map (fun d => '_' :: (d ++ ['_']))).flatten

/-- Modelled from the spec (claim C4): the claimed lookup procedure.  Try
the full prefix plus the id; on failure strip exactly the innermost prefix
segment and retry; fail when no prefix segment remains. -/
def lookupSpec (defs : List (List Char × Nat)) :
    List (List Char) → List Char → Option Nat
  | [], id => lookupDefs defs id
  | d :: rest, id =>
    match lookupDefs defs (scopeStr (d :: rest) ++ id) with
    | some v => some v
    | none => lookupSpec defs rest id

/-- The defs map of the C4 counterexample: a single definition `"ab"`
in the root scope. -/
def defsAB : List (List Char × Nat) := [("ab".toList, 7)]

/-- C4 counterexample: looked up from the root scope (empty prefix), the
id `"a_1_b"` should — per the claim — fail (no prefix segment remains to
strip).  The source's `getFromDefs` instead strips the `_1_` *inside the
id itself* and finds the unrelated definition `"ab"`. -/
theorem c4_counterexample_id_with_digits :
    getFromDefs defsAB ("a_1_b".toList) = some 7 ∧
    lookupSpec defsAB [] ("a_1_b".toList) = none := by
  constructor
  · simp +decide [getFromDefs, findPatSplit, lookupDefs, defsAB, isDigit]
  · simp +decide [lookupSpec, lookupDefs, defsAB]

/-- Digit-run prefix: `takeWhile isDigit` of `d ++ '_' :: t` is `d` when
`d` is all digits. -/
theorem takeWhile_digit_prefix (d t : List Char) (hd : ∀ c ∈ d, isDigit c) :
    (d ++ '_' :: t).takeWhile isDigit = d := by
  induction d with
  | nil => simp [List.takeWhile, isDigit]
  | cons c cs ih =>
    have hc : isDigit c := hd c (by simp)
    have hcs : ∀ x ∈ cs, isDigit x := fun x hx => hd x (by simp [hx])
    simp [List.takeWhile, hc, ih hcs]

/-- On a well-formed scoped id (nonempty all-digit prefix segments, and an
id free of `_\d+_` fragments), the leftmost `_\d+_` match is exactly the
innermost (leading) prefix segment. -/
theorem findPatSplit_scope (d : List Char) (t : List Char)
    (hne : d ≠ []) (hdig : ∀ c ∈ d, isDigit c) :
    findPatSplit ('_' :: (d ++ '_' :: t)) = some ([], t) := by
  have htw : (d ++ '_' :: t).takeWhile isDigit = d := takeWhile_digit_prefix d t hdig
  have hdrop : (d ++ '_' :: t).drop d.length = '_' :: t := List.drop_left d ('_' :: t)
  have hdrop1 : (d ++ '_' :: t).drop (d.length + 1) = t := by
    rw [List.append_cons d '_' t,
      show d.length + 1 = (d ++ ['_']).length by simp]
    exact List.drop_left (d ++ ['_']) t
  simp only [findPatSplit, htw, hdrop, hdrop1]
  rw [if_pos ⟨trivial, hne, rfl⟩]

/-- C4 as amended: restricted to ids that do not themselves contain a
`_\d+_` fragment, the scoped lookup behaves exactly as the claim states:
from a scope with prefix segments `segs` (innermost first, each a nonempty
digit string), the lookup tries the full prefix plus the id, strips the
innermost segment per failure, and finally fails with the bare id — so a
scope sees its own and every ancestor's definitions, never a sibling's,
and the innermost match wins (shadowing).  For ids containing `_digits_`
the source deviates (see the counterexample). -/
theorem c4_scoped_lookup_chain (defs : List (List Char × Nat))
    (segs : List (List Char)) (id : List Char)
    (hsegs : ∀ d ∈ segs, d ≠ [] ∧ ∀ c ∈ d, isDigit c)
    (hid : findPatSplit id = none) :
    getFromDefs defs (scopeStr segs ++ id) = lookupSpec defs segs id := by
  induction segs with
  | nil =>
    have hs : scopeStr [] ++ id = id := by simp [scopeStr]
    rw [hs, getFromDefs]
    show _ = lookupDefs defs id
    split
    · rfl
    · split
      · rename_i b a heq
        rw [hid] at heq
        cases heq
      · rfl
  | cons d rest ih =>
    have hd := hsegs d (by simp)
    have hrest : ∀ x ∈ rest, x ≠ [] ∧ ∀ c ∈ x, isDigit c :=
      fun x hx => hsegs x (by simp [hx])
    have hkey : scopeStr (d :: rest) ++ id = '_' :: (d ++ '_' :: (scopeStr rest ++ id)) := by
      simp [scopeStr, List.append_assoc]
    have hsplit : findPatSplit (scopeStr (d :: rest) ++ id) =
        some ([], scopeStr rest ++ id) := by
      rw [hkey]
      exact findPatSplit_scope d (scopeStr rest ++ id) hd.1 hd.2
    rw [getFromDefs]
    rcases hfound : lookupDefs defs (scopeStr (d :: rest) ++ id) with _ | v
    · simp only [hfound, Option.isSome_none, Bool.false_eq_true, if_false]
      split
      · rename_i b a heq
        rw [hsplit] at heq
        cases heq
        rw [List.nil_append, ih hrest]
        simp only [lookupSpec, hfound]
      · rename_i heq
        rw [hsplit] at heq
        cases heq
    · simp only [hfound, Option.isSome_some, if_true, lookupSpec, hfound]

/-- C4 witness: the amended theorem applied at a concrete two-level scope:
from scope `_1__0_` (child `_1_` of child `_0_` of the root), the id `"a"`
resolves to the innermost matching definition — here the parent scope's
`_0_a`, shadowing the root's `a`; the sibling scope's `_2__0_a` is never
seen. -/
theorem c4_scoped_lookup_witness :
    getFromDefs
        [ ("a".toList, 1), ("_0_a".toList, 2), ("_2__0_a".toList, 3) ]
        (scopeStr ["1".toList, "0".toList] ++ "a".toList) = some 2 ∧
    lookupSpec [ ("a".toList, 1), ("_0_a".toList, 2), ("_2__0_a".toList, 3) ]
        ["1".toList, "0".toList] "a".toList = some 2 := by
  have h := c4_scoped_lookup_chain
    [ ("a".toList, 1), ("_0_a".toList, 2), ("_2__0_a".toList, 3) ]
    ["1".toList, "0".toList] "a".toList
    (by intro d hd; fin_cases hd <;> exact ⟨by decide, by decide⟩)
    (by decide)
  refine ⟨?_, ?_⟩
  · rw [h]
    simp +decide [lookupSpec, lookupDefs, scopeStr]
  · simp +decide [lookupSpec, lookupDefs, scopeStr]

/-! ## Gradient stop opacity (`putGradient`) -/

/-- JS truthiness of an attribute value: absent (`null`/`undefined`) and
the empty string are falsy. -/
def strTruthy : Option String → Bool
  | none => false
  | some s => s ≠ ""

/-- JS `x || y` on attribute strings. -/
def jsOrStr (x y : Option String) : Option String := if strTruthy x then x else y

/-- ASCII lowercasing of a character (`String.prototype.toLowerCase`;
tag and attribute names in the modelled documents are ASCII). -/
def lowerChar (c : Char) : Char :=
  if 'A' ≤ c ∧ c ≤ 'Z' then Char.ofNat (c.toNat + 32) else c

/-- ASCII `toLowerCase`. -/
def strToLower (s : String) : String := String.mk (s.toList.map lowerChar)

/-- A DOM element as seen through attribute lookup: tag name, attribute
map, inline-style map. -/
structure Elem where
  tagName : String
  attrs : List (String × String) := []
  style : List (String × String) := []
deriving DecidableEq, Repr

/-- `node.getAttribute(name)` (`null` when absent, modelled as `none`). -/
def getAttr (el : Elem) (name : String) : Option String := el.attrs.lookup name

/-- `getAttribute` (src lines 85-88): the node attribute, falling back to
the equally named inline-style property when the attribute is falsy. -/
def getAttribute (el : Elem) (name : String) : Option String :=
  jsOrStr (getAttr el name) (el.style.lookup name)

/-- The JS test `opacity && opacity != 1` of src line 914 on the attribute
value: truthy, and its numeric coercion is not `1` (`NaN != 1` is true). -/
def stopOpacityTest (o : Option String) : Bool :=
  strTruthy o &&
    (match o with
     | some s =>
       match jsToNumber s with
       | some q => q != 1
       | none => true
     | none => true)

/-- Is this child a stop that contributes to the opacity sum
(src lines 906, 913-917)? -/
def isContribStop (el : Elem) : Bool :=
  strToLower el.tagName = "stop" && stopOpacityTest (getAttribute el "stop-opacity")

/-- The value a contributing stop adds to the sum:
`parseFloat(opacity)` (src line 915). -/
def stopOpacityVal (el : Elem) : JsNum :=
  match getAttribute el "stop-opacity" with
  | some s => jsParseFloat s
  | none => none

/-- The color entry pushed for a stop (src lines 908-912): parsed offset
attribute and the raw stop-color string (RGB parsing is the external
`RGBColor` collaborator). -/
def stopColorEntry (el : Elem) : JsNum × Option String :=
  (match getAttr el "offset" with
   | some s => jsParseFloat s
   | none => none,
   getAttribute el "stop-color")

/-- The `n.children().each` loop of `putGradient` (src lines 904-919),
threading the `colors` list, the running `opacitySum` and the `hasOpacity`
flag exactly as the source does. -/
def collectStops :
    List Elem → (List (JsNum × Option String) × JsNum × Bool) →
      List (JsNum × Option String) × JsNum × Bool
  | [], acc => acc
  | el :: rest, (colors, osum, hasOp) =>
    if strToLower el.tagName = "stop" then
      if stopOpacityTest (getAttribute el "stop-opacity") then
        collectStops rest (colors ++ [stopColorEntry el],
          jadd osum (stopOpacityVal el), true)
      else
        collectStops rest (colors ++ [stopColorEntry el], osum, hasOp)
    else
      collectStops rest (colors, osum, hasOp)

/-- A value in the gradient coordinate array: either a number literal or a
raw attribute value (the source mixes both; only the array's *length* is
consulted by `putGradient` itself). -/
inductive JsVal where
  | num : JsNum → JsVal
  | str : Option String → JsVal
deriving DecidableEq, Repr

/-- `x || d` where `x` is an attribute value and `d` a number literal
(src lines 1129-1134). -/
def jsOrVal (x : Option String) (d : JsVal) : JsVal :=
  if strTruthy x then .str x else d

/-- The coordinate array passed for a `lineargradient`
(src line 1124): always 4 values. -/
def linearCoords (n : Elem) : List JsVal :=
  [.str (getAttr n "x1"), .str (getAttr n "y1"),
   .str (getAttr n "x2"), .str (getAttr n "y2")]

/-- The coordinate array passed for a `radialgradient`
(src lines 1128-1135): always 6 values. -/
def radialCoords (n : Elem) : List JsVal :=
  [.str (jsOrStr (getAttr n "fx") (getAttr n "cx")),
   .str (jsOrStr (getAttr n "fy") (getAttr n "cy")),
   .num (some 0),
   jsOrVal (getAttr n "cx") (.num (some 0)),
   jsOrVal (getAttr n "cy") (.num (some 0)),
   jsOrVal (getAttr n "r") (.num (some 0))]

/-- The opacity attached to the gradient paint by `putGradient`
(src lines 921-923): attached only when some stop contributed, and equal
to the running sum divided by `coords.length`. -/
def gradientOpacity (children : List Elem) (coords : List JsVal) : Option JsNum :=
  let (_, osum, hasOp) := collectStops children ([], some 0, false)
  if hasOp then some (jdiv osum (some (coords.length : ℚ))) else none

/-- The contributing stops' opacity values, in document order
(specification-side reformulation). -/
def contribVals (children : List Elem) : List JsNum :=
  (children.filter isContribStop).map stopOpacityVal

/-- The accumulator components of the stop loop, characterised:
the opacity sum is the left fold of the contributing values over the
initial sum, and the flag is set exactly when some stop contributes. -/
theorem collectStops_spec (children : List Elem) :
    ∀ colors osum hasOp,
      (collectStops children (colors, osum, hasOp)).2.1 =
        (contribVals children).foldl jadd osum ∧
      (collectStops children (colors, osum, hasOp)).2.2 =
        (hasOp || children.any isContribStop) := by
  induction children with
  | nil => intro colors osum hasOp; simp [collectStops, contribVals]
  | cons el rest ih =>
    intro colors osum hasOp
    by_cases hstop : strToLower el.tagName = "stop"
    · by_cases hop : stopOpacityTest (getAttribute el "stop-opacity") = true
      · have hc : isContribStop el = true := by
          simp [isContribStop, hstop, hop]
        have hstep : collectStops (el :: rest) (colors, osum, hasOp) =
            collectStops rest (colors ++ [stopColorEntry el],
              jadd osum (stopOpacityVal el), true) := by
          simp [collectStops, hstop, hop]
        rw [hstep]
        constructor
        · rw [(ih _ _ _).1]
          simp [contribVals, hc]
        · rw [(ih _ _ _).2]
          simp [hc]
      · have hc : isContribStop el = false := by
          simp [isContribStop, hop]
        have hstep : collectStops (el :: rest) (colors, osum, hasOp) =
            collectStops rest (colors ++ [stopColorEntry el], osum, hasOp) := by
          simp [collectStops, hstop, hop]
        rw [hstep]
        constructor
        · rw [(ih _ _ _).1]
          simp [contribVals, hc]
        · rw [(ih _ _ _).2]
          simp [hc]
    · have hc : isContribStop el = false := by
        simp [isContribStop, hstop]
      have hstep : collectStops (el :: rest) (colors, osum, hasOp) =
          collectStops rest (colors, osum, hasOp) := by
        simp [collectStops, hstop]
      rw [hstep]
      constructor
      · rw [(ih _ _ _).1]
        simp [contribVals, hc]
      · rw [(ih _ _ _).2]
        simp [hc]

/-- C6: for every gradient element, each stop whose `stop-opacity` is
present (truthy) and whose numeric value is not `1` contributes its
`parseFloat` value to a running sum; the paint's single opacity is that
sum divided by the *number of gradient coordinate values* — always 4 for
a linear gradient and 6 for a radial gradient, regardless of the number
of stops — and when no stop contributes, no opacity value is attached. -/
theorem c6_gradient_opacity_by_coord_count (children : List Elem) (n : Elem) :
    (linearCoords n).length = 4 ∧
    (radialCoords n).length = 6 ∧
    (∀ coords : List JsVal,
      gradientOpacity children coords =
        if children.any isContribStop then
          some (jdiv ((contribVals children).foldl jadd (some 0))
            (some (coords.length : ℚ)))
        else none) := by
  refine ⟨rfl, rfl, ?_⟩
  intro coords
  have h := collectStops_spec children [] (some 0) false
  simp only [gradientOpacity, h.1, h.2, Bool.false_or]

/-! ## The DOM heap and the traversal (`renderNode` / `svgElementToPdf`)

The traversal is modelled over an explicit mutable heap of DOM nodes so
that `element.cloneNode(true)` and the destructive
`child.parentNode.removeChild(child)` of `findAndRenderDefs` are real
mutations.  The modelled element universe covers the dispatch cases
`svg`, `g`, `a`, `marker`, `defs`, `use`, `line`, `rect`, `ellipse`,
`circle`, `lineargradient` and `radialgradient`; the `text`, `path`,
`polygon` and `image` cases (which the source also implements) are outside
the modelled universe and fall to the switch's silent default.  `_pdf`
calls are recorded as emitted operations (the spec's DrawingEmitter
boundary), and `RGBColor` is an external color-parsing oracle. -/

/-- A DOM node: the attribute view plus the ordered child id list. -/
structure DomNode where
  el : Elem
  kids : List Nat := []
deriving DecidableEq, Repr

/-- The DOM heap: node id → node. -/
abbrev Heap := List (Nat × DomNode)

/-- Heap lookup. -/
def hGet : Heap → Nat → Option DomNode
  | [], _ => none
  | (k, n) :: rest, i => if k = i then some n else hGet rest i

/-- Heap update of an existing entry (ids are unique by construction). -/
def hSet : Heap → Nat → DomNode → Heap
  | [], _, _ => []
  | (a, b) :: rest, i, n => (if a = i then (i, n) else (a, b)) :: hSet rest i n

/-- `parent.removeChild(child)`: drop the (first) occurrence of `childId`
from the parent's child list (src line 875). -/
def hRemoveKid (h : Heap) (parent : Nat) (childId : Nat) : Heap :=
  match hGet h parent with
  | some n => hSet h parent { n with kids := n.kids.erase childId }
  | none => h

mutual
/-- `element.cloneNode(true)`: deep copy into fresh ids (`fresh` is the
next unused id); returns the new heap, the clone's id and the next fresh
id.  Out-of-fuel or dangling source ids yield an id with no entry (a model
artifact; the theorems' scenarios provide ample fuel). -/
def cloneNode : Nat → Heap → Nat → Nat → Heap × Nat × Nat
  | 0, h, _, fresh => (h, fresh, fresh + 1)
  | fuel + 1, h, i, fresh =>
    match hGet h i with
    | none => (h, fresh, fresh + 1)
    | some n =>
      let r := cloneKids fuel h n.kids fresh
      (r.1 ++ [(r.2.2, { n with kids := r.2.1 })], r.2.2, r.2.2 + 1)
termination_by fuel _ _ _ => (fuel, 0)
decreasing_by
  all_goals simp_wf
  all_goals omega

/-- Clone a child list in order, threading the heap and the fresh
counter. -/
def cloneKids : Nat → Heap → List Nat → Nat → Heap × List Nat × Nat
  | _, h, [], fresh => (h, [], fresh)
  | fuel, h, i :: rest, fresh =>
    let r1 := cloneNode fuel h i fresh
    let r2 := cloneKids fuel r1.1 rest r1.2.2
    (r2.1, r1.2.1 :: r2.2.1, r2.2.2)
termination_by fuel _ ids _ => (fuel, ids.length + 1)
decreasing_by
  all_goals simp_wf
  all_goals omega
end

/-- The drawing operations emitted to the jsPDF backend (the
DrawingEmitter boundary of spec section 6). -/
inductive Op where
  | saveGS
  | restoreGS
  | setCTM (m : Mat)
  | beginFormObj (x y w h : JsNum) (m : Mat)
  | endFormObj (id : String)
  | doFormObj (id : String) (m : Mat)
  | linePrim (x1 y1 x2 y2 : JsNum)
  | roundedRect (x y w h rx ry : JsNum) (colorMode : Option String)
      (gradient : Option String) (gradientMatrix : Option Mat)
  | ellipsePrim (cx cy rx ry : JsNum) (colorMode : Option String)
      (gradient : Option String) (gradientMatrix : Option Mat)
  | setGStateOpacity (o : JsNum)
  | setFillColor (c : String)
  | setDrawColor (c : String)
  | setLineWidth (w : JsNum)
  | setLineCap (v : Option String)
  | setLineJoin (v : Option String)
  | setLineDash (pattern : List JsNum) (offset : JsNum)
  | addPattern (id : String) (kind : String) (coords : List JsVal)
      (colors : List (JsNum × Option String)) (opacity : Option JsNum)
deriving DecidableEq, Repr

/-- The JS exceptional outcomes the model distinguishes: a thrown
`TypeError` (member access on `undefined`), and fuel exhaustion standing
for a source loop that is still running. -/
inductive JsErr where
  | typeErr
  | outOfFuel
deriving DecidableEq, Repr

/-- The external oracles: trigonometry (`Math`) and color parsing
(`RGBColor`): `colorOk s` is `new RGBColor(s).ok`. -/
structure Oracles where
  tg : Trig
  colorOk : String → Bool

/-- The render-time mutable state: the DOM heap, the emitted operation
list, the jsPDF form-object registry (id → intrinsic width/height), the
stack of begun-but-unfinished form objects, and the fresh-id counter. -/
structure RS where
  heap : Heap
  ops : List Op := []
  formObjs : List (String × (JsNum × JsNum)) := []
  pendingForm : List (JsNum × JsNum) := []
  fresh : Nat := 0
deriving DecidableEq, Repr

/-- Append an emitted operation. -/
def emit (st : RS) (op : Op) : RS := { st with ops := st.ops ++ [op] }

/-- `parseFloat(node.attr(name))`: `NaN` when the attribute is absent. -/
def pfAttr (e : Elem) (name : String) : JsNum :=
  match getAttr e name with
  | some s => jsParseFloat s
  | none => none

/-- `ToNumber(node.attr(name))` (the coercion used by `-` on strings):
`NaN` when absent (`undefined`). -/
def toNumAttr (e : Elem) (name : String) : JsNum :=
  match getAttr e name with
  | some s => jsToNumber s
  | none => none

/-- A truthy attribute value (absent and `""` are falsy). -/
def getAttrT (e : Elem) (name : String) : Option String :=
  match getAttr e name with
  | some s => if s = "" then none else some s
  | none => none

/-- JS `Math.min`, `NaN` propagating. -/
def jmin : JsNum → JsNum → JsNum
  | some a, some b => some (min a b)
  | _, _ => none

/-- JS `Math.max`, `NaN` propagating. -/
def jmax : JsNum → JsNum → JsNum
  | some a, some b => some (max a b)
  | _, _ => none

/-- `(vb && vb[k])`: `undefined` when the viewBox was absent. -/
def vbIdx (vb : Option (List JsNum)) (k : Nat) : JsNum :=
  match vb with
  | some l => idx l k
  | none => none

/-- Substring containment, JS `hay.indexOf(needle) >= 0`. -/
def subStr (hay needle : List Char) : Bool :=
  if needle.isPrefixOf hay then true
  else
    match hay with
    | [] => false
    | _ :: t => subStr t needle

/-- `computeNodeTransform` (src lines 154-200): the node-local transform
from positional attributes and viewBox scaling, composed with the parsed
`transform` attribute.  `none` means the transform-string loop was still
running after `fuel` iterations. -/
def computeNodeTransform (tg : Trig) (fuel : Nat) (n : DomNode) : Option Mat :=
  let e := n.el
  let nodeTransform : Mat :=
    if e.tagName = "svg" ∨ e.tagName = "g" then
      let x := jsOrNum (pfAttr e "x") (some 0)
      let y := jsOrNum (pfAttr e "y") (some 0)
      match getAttrT e "viewBox" with
      | some vb =>
        let bounds := parseFloats vb
        let vbW := jsub (idx bounds 2) (idx bounds 0)
        let vbH := jsub (idx bounds 3) (idx bounds 1)
        let width := jsOrNum (pfAttr e "width") vbW
        let height := jsOrNum (pfAttr e "height") vbH
        ⟨jdiv width vbW, some 0, some 0, jdiv height vbH,
         jsub x (idx bounds 0), jsub y (idx bounds 1)⟩
      | none => ⟨some 1, some 0, some 0, some 1, x, y⟩
    else if e.tagName = "marker" then
      let x := jsOrNum (jneg (pfAttr e "refX")) (some 0)
      let y := jsOrNum (jneg (pfAttr e "refY")) (some 0)
      match getAttrT e "viewBox" with
      | some vb =>
        let bounds := parseFloats vb
        let vbW := jsub (idx bounds 2) (idx bounds 0)
        let vbH := jsub (idx bounds 3) (idx bounds 1)
        let width := jsOrNum (pfAttr e "markerWidth") vbW
        let height := jsOrNum (pfAttr e "markerHeight") vbH
        let s : Mat := ⟨jdiv width vbW, some 0, some 0, jdiv height vbH, some 0, some 0⟩
        let t : Mat := ⟨some 1, some 0, some 0, some 1,
          jsub x (idx bounds 0), jsub y (idx bounds 1)⟩
        matrixMult t s
      | none => ⟨some 1, some 0, some 0, some 1, x, y⟩
    else unitMatrix
  match getAttr e "transform" with
  | none => some nodeTransform
  | some ts =>
    if ts = "" then some nodeTransform
    else
      match parseTransformLoop tg fuel ts.toList unitMatrix with
      | some m => some (matrixMult nodeTransform m)
      | none => none

/-- `getUntransformedBBox` (src lines 294-457) for the modelled universe:
the `svg` and `marker` branches and the generic coordinate-attribute
branch (which in the source also serves `rect`, `circle`, `ellipse` and
`line`); the `polygon` and `path` branches are outside the modelled
universe.  Returns `[x, y, w, h]`. -/
def getUntransformedBBox (n : DomNode) : List JsNum :=
  let e := n.el
  if e.tagName = "svg" then
    let vb := (getAttrT e "viewBox").map parseFloats
    [jsOrNum (pfAttr e "x") (jsOrNum (vbIdx vb 0) (some 0)),
     jsOrNum (pfAttr e "y") (jsOrNum (vbIdx vb 1) (some 0)),
     jsOrNum (pfAttr e "width") (jsOrNum (vbIdx vb 2) (some 0)),
     jsOrNum (pfAttr e "height") (jsOrNum (vbIdx vb 3) (some 0))]
  else if e.tagName = "marker" then
    let vb := (getAttrT e "viewBox").map parseFloats
    [jsOrNum (vbIdx vb 0) (some 0),
     jsOrNum (vbIdx vb 1) (some 0),
     jsOrNum (vbIdx vb 2) (jsOrNum (pfAttr e "marker-width") (some 0)),
     jsOrNum (vbIdx vb 3) (jsOrNum (pfAttr e "marker-height") (some 0))]
  else
    let x1 := jsOrNum (pfAttr e "x1") (jsOrNum (pfAttr e "x")
      (jsOrNum (jsub (toNumAttr e "cx") (pfAttr e "r")) (some 0)))
    let x2 := jsOrNum (pfAttr e "x2") (jsOrNum (jadd x1 (pfAttr e "width"))
      (jsOrNum (jadd (pfAttr e "cx") (pfAttr e "r")) (some 0)))
    let y1 := jsOrNum (pfAttr e "y1") (jsOrNum (pfAttr e "y")
      (jsOrNum (jsub (pfAttr e "cy") (pfAttr e "r")) (some 0)))
    let y2 := jsOrNum (pfAttr e "y2") (jsOrNum (jadd y1 (pfAttr e "height"))
      (jsOrNum (jadd (pfAttr e "cy") (pfAttr e "r")) (some 0)))
    [jmin x1 x2, jmin y1 y2,
     jsub (jmax x1 x2) (jmin x1 x2), jsub (jmax y1 y2) (jmin y1 y2)]

/-- JS `RegExp.exec` for `url\(#(\w+)\)`: the first word-character group
that follows `url(#` and is closed by `)`. -/
def execUrlRef : List Char → Option (List Char)
  | [] => none
  | c :: rest =>
    if ("url(#".toList).isPrefixOf (c :: rest) then
      let t := (c :: rest).drop 5
      let ds := t.takeWhile isWord
      if ds ≠ [] ∧ (t.drop ds.length).head? = some ')' then some ds
      else execUrlRef rest
    else execUrlRef rest

/-- The scope-prefix object (`SvgPrefix`, src lines 118-127): the prefix
string and the mutable child counter. -/
structure SvgScope where
  str : String
  ctr : Nat := 0
deriving DecidableEq, Repr

/-- `svgIdPrefix.nextChild()` (src line 121-123): a child prefix
`"_" + ctr + "_" + prefix`, incrementing the parent's counter; returns
(child scope, updated parent scope). -/
def nextChild (s : SvgScope) : SvgScope × SvgScope :=
  (⟨"_" ++ toString s.ctr ++ "_" ++ s.str, 0⟩, { s with ctr := s.ctr + 1 })

/-- The defs map of the traversal (scoped id → node id); `cloneDefs` is a
value copy. -/
abbrev Defs := List (String × Nat)

/-- `defs[id] = node` (src line 928): bind, shadowing any older binding. -/
def defsSet (defs : Defs) (k : String) (v : Nat) : Defs := (k, v) :: defs

/-- `getFromDefs` on the traversal's string-keyed map. -/
def getFromDefsS (defs : Defs) (id : String) : Option Nat :=
  getFromDefs (defs.map (fun kv => (kv.1.toList, kv.2))) id.toList

/-- `svgIdPrefix.get() + n.attr("id")`: JS string concatenation coerces an
absent attribute to the string `"undefined"`. -/
def scopedId (scope : SvgScope) (a : Option String) : String :=
  scope.str ++ (match a with | some s => s | none => "undefined")

/-- The fill-resolution outcome of src lines 982-1033. -/
structure FillCtx where
  hasFillColor : Bool := false
  fillColor : Option String := none
  colorMode : Option String := none
  gradient : Option String := none
  gradientMatrix : Option Mat := none
deriving DecidableEq, Repr

/-- The fill-mode section of `renderNode` (src lines 982-1025): resolve a
`url(#id)` fill through `getFromDefs` — where a failed lookup makes
`fill.tagName` a member access on `undefined`, a thrown `TypeError` — or
parse a plain color; an absent fill attribute defaults to opaque black. -/
def resolveFill (ora : Oracles) (fuel : Nat) (h : Heap) (n : DomNode)
    (tf : Mat) (defs : Defs) (scope : SvgScope) : Except JsErr FillCtx :=
  let e := n.el
  match getAttrT e "fill" with
  | some fillColor =>
    match execUrlRef fillColor.toList with
    | some idChars =>
      let gradientId := scope.str ++ String.mk idChars
      match getFromDefsS defs gradientId with
      | none => .error .typeErr
      | some fillNodeId =>
        match hGet h fillNodeId with
        | none => .error .typeErr
        | some fillNode =>
          if subStr "lineargradient,radialgradient".toList
              (strToLower fillNode.el.tagName).toList then
            let gumOpt : Option Mat :=
              match getAttr fillNode.el "gradientUnits" with
              | none =>
                let bb := getUntransformedBBox n
                let m1 : Mat := ⟨idx bb 2, some 0, some 0, idx bb 3, idx bb 0, idx bb 1⟩
                (computeNodeTransform ora.tg fuel n).map (matrixMult m1)
              | some gu =>
                if strToLower gu = "objectboundingbox" then
                  let bb := getUntransformedBBox n
                  let m1 : Mat := ⟨idx bb 2, some 0, some 0, idx bb 3, idx bb 0, idx bb 1⟩
                  (computeNodeTransform ora.tg fuel n).map (matrixMult m1)
                else some tf
            match gumOpt with
            | none => .error .outOfFuel
            | some gum =>
              match parseTransform ora.tg fuel (getAttr fillNode.el "gradientTransform") with
              | none => .error .outOfFuel
              | some gt =>
                .ok { gradient := some gradientId,
                      gradientMatrix := some (matrixMult gt gum) }
          else
            .ok { gradient := some gradientId }
    | none =>
      if ora.colorOk fillColor then
        .ok { hasFillColor := true, fillColor := some fillColor, colorMode := some "F" }
      else
        .ok { fillColor := some fillColor, colorMode := none }
  | none =>
    .ok { hasFillColor := true, fillColor := some "rgb(0, 0, 0)", colorMode := some "F" }

/-- `parseInt(s)` restricted to the decimal case (no radix argument was
passed; hex literals are outside the model's domain). -/
def jsParseInt (s : String) : JsNum :=
  let cs := s.toList.dropWhile isWs
  let core : List Char → JsNum := fun l =>
    let ds := l.takeWhile isDigit
    if ds = [] then none else some ((digitsVal ds : ℚ))
  match cs with
  | '-' :: rest => (core rest).map (fun q => -q)
  | '+' :: rest => core rest
  | _ => core cs

/-- The stroke section of `renderNode` (src lines 1043-1065): emitted
operations and the updated color mode. -/
def applyStroke (ora : Oracles) (e : Elem) (colorMode : Option String)
    (st : RS) : RS × Option String :=
  match getAttrT e "stroke" with
  | some strokeColor =>
    let st :=
      if (getAttr e "stroke-width").isSome then
        emit st (.setLineWidth (jabs (pfAttr e "stroke-width")))
      else st
    let (st, colorMode) :=
      if ora.colorOk strokeColor then
        (emit st (.setDrawColor strokeColor), some (colorMode.getD "" ++ "D"))
      else (st, colorMode)
    let st :=
      if (getAttr e "stroke-linecap").isSome then
        emit st (.setLineCap (getAttr e "stroke-linecap"))
      else st
    let st :=
      if (getAttr e "stroke-linejoin").isSome then
        emit st (.setLineJoin (getAttr e "stroke-linejoin"))
      else st
    let st :=
      if (getAttr e "stroke-dasharray").isSome then
        emit st (.setLineDash
          (parseFloats ((getAttr e "stroke-dasharray").getD ""))
          (jsOrNum (match getAttr e "stroke-dashoffset" with
                    | some s => jsParseInt s
                    | none => none) (some 0)))
      else st
    (st, colorMode)
  | none => (st, colorMode)

/-- The result of rendering: the mutable state, the (possibly mutated)
defs map and scope object as seen by the caller, and the exception in
flight, if any (a `some` error means the node's exit actions were
*skipped*: JS has no `finally` here). -/
structure RRes where
  st : RS
  defs : Defs
  scope : SvgScope
  err : Option JsErr
deriving DecidableEq, Repr

/-- The scaling/positioning matrix of `use` (src lines 698-707): rescale
by requested-over-intrinsic size only when both requested dimensions are
positive, then position at `(x, y)` and compose with the current
transform. -/
def useMatrix (e : Elem) (wh : JsNum × JsNum) (tf : Mat) : Mat :=
  let wNum := match getAttrT e "width" with | some s => jsToNumber s | none => wh.1
  let hNum := match getAttrT e "height" with | some s => jsToNumber s | none => wh.2
  let x := match getAttrT e "x" with | some s => jsToNumber s | none => some 0
  let y := match getAttrT e "y" with | some s => jsToNumber s | none => some 0
  let t : Mat :=
    if jgtZero wNum && jgtZero hNum then
      ⟨jdiv wNum wh.1, some 0, some 0, jdiv hNum wh.2, x, y⟩
    else unitMatrix
  matrixMult t tf

/-- `use` (src lines 689-709): a missing href is an early return (the
caller still runs its exit action); an id unknown to the form-object
registry makes `formObject.width` a member access on `undefined` — a
thrown `TypeError`. -/
def useFn (e : Elem) (tf : Mat) (scope : SvgScope) (st : RS) : RS × Option JsErr :=
  match jsOrStr (getAttrT e "href") (getAttrT e "xlink:href") with
  | none => (st, none)
  | some u =>
    let key := scope.str ++ u.drop 1
    match st.formObjs.lookup key with
    | none => (st, some .typeErr)
    | some wh =>
      (emit st (.doFormObj key (useMatrix e wh tf)), none)

/-- The first selector list of the paint section (src line 982). -/
def isFillTag (t : String) : Bool :=
  t = "g" || t = "path" || t = "rect" || t = "text" || t = "ellipse" ||
  t = "line" || t = "circle" || t = "polygon"

/-- The second selector list (src line 1036): as the first, without
`text`. -/
def isStrokeTag (t : String) : Bool :=
  t = "g" || t = "path" || t = "rect" || t = "ellipse" ||
  t = "line" || t = "circle" || t = "polygon"

/-- The values produced by a node's entry, fill and stroke phases and
consumed by the dispatch and exit phases of `renderNode`. -/
structure Pre where
  st : RS
  tf : Mat
  withinDefs : Bool
  colorMode : Option String
  fc : FillCtx
  err : Option JsErr
  tif : Bool

/-- The per-node prologue of `renderNode` (src lines 952-1068): entry
action (begin a form object inside defs for non-gradients, otherwise save
the graphics state), paint resolution (which can throw) and stroke
resolution.  `tif` records the `targetIsFormObject` test for the matching
exit action. -/
def preamble (ora : Oracles) (fuel : Nat) (n : DomNode) (tagL : String)
    (ntf ctm : Mat) (withinDefs : Bool) (defs : Defs) (scope : SvgScope)
    (st : RS) : Pre :=
  let e := n.el
  let targetIsForm :=
    withinDefs && !(subStr "lineargradient,radialgradient".toList tagL.toList)
  let entry : RS × Mat × Bool :=
    if targetIsForm then
      let bb := getUntransformedBBox n
      let st := emit st
        (.beginFormObj (idx bb 0) (idx bb 1) (idx bb 2) (idx bb 3) ntf)
      ({ st with pendingForm := (idx bb 2, idx bb 3) :: st.pendingForm },
       unitMatrix, false)
    else
      (emit st .saveGS, matrixMult ntf ctm, withinDefs)
  let st := entry.1
  let tf := entry.2.1
  let withinDefs := entry.2.2
  let fillRes : Except JsErr (RS × FillCtx) :=
    if isFillTag tagL then
      match resolveFill ora fuel st.heap n tf defs scope with
      | .error er => .error er
      | .ok fc =>
        let o := jsOrStr (getAttrT e "opacity") (getAttrT e "fill-opacity")
        let st := emit st (.setGStateOpacity
          (match o with | some s => jsParseFloat s | none => some 1))
        .ok (st, fc)
    else .ok (st, {})
  match fillRes with
  | .error er => ⟨st, tf, withinDefs, none, {}, some er, targetIsForm⟩
  | .ok (st, fc) =>
    let strokeRes : RS × Option String :=
      if isStrokeTag tagL then
        let st := if fc.hasFillColor then
            emit st (.setFillColor (fc.fillColor.getD "")) else st
        applyStroke ora e fc.colorMode st
      else (st, fc.colorMode)
    ⟨strokeRes.1, tf, withinDefs, strokeRes.2, fc, none, targetIsForm⟩

mutual
/-- The body of `renderNode` for a resolved node (src lines 952-1146):
the prologue (`preamble`), the tag dispatch, then — only if no exception
is in flight — the matching exit action {end the form object, restore the
graphics state}. -/
def renderNodeCore (ora : Oracles) (fuel : Nat) (nodeId : Nat) (n : DomNode)
    (ctm : Mat) (defs : Defs) (scope : SvgScope) (withinDefs : Bool)
    (st : RS) : RRes :=
  let e := n.el
  let tagL := strToLower e.tagName
  match computeNodeTransform ora.tg fuel n with
  | none => ⟨st, defs, scope, some .outOfFuel⟩
  | some ntf =>
    let p := preamble ora fuel n tagL ntf ctm withinDefs defs scope st
    match p.err with
    | some er => ⟨p.st, defs, scope, some er⟩
    | none =>
      let r : RRes := dispatchNode ora fuel nodeId n tagL p.tf defs scope
        p.withinDefs p.st p.colorMode p.fc
      match r.err with
      | some er => ⟨r.st, r.defs, r.scope, some er⟩
      | none =>
        if p.tif then
          let key := scopedId scope (getAttr e "id")
          let wh := r.st.pendingForm.headD (none, none)
          let st2 := { r.st with pendingForm := r.st.pendingForm.tail }
          let st2 := { st2 with formObjs := (key, wh) :: st2.formObjs }
          ⟨emit st2 (.endFormObj key), r.defs, r.scope, none⟩
        else
          ⟨emit r.st .restoreGS, r.defs, r.scope, none⟩
termination_by (fuel, 3, 0)

/-- `renderNode` (src lines 940-1146): resolve the node and run the
per-node body (`renderNodeCore`). -/
def renderNode (ora : Oracles) : Nat → Nat → Mat → Defs → SvgScope → Bool → RS → RRes
  | 0, _, _, defs, scope, _, st => ⟨st, defs, scope, some .outOfFuel⟩
  | fuel + 1, nodeId, ctm, defs, scope, withinDefs, st =>
    match hGet st.heap nodeId with
    | none => ⟨st, defs, scope, some .typeErr⟩
    | some n => renderNodeCore ora fuel nodeId n ctm defs scope withinDefs st
termination_by fuel _ _ _ _ _ _ => (fuel, 0, 0)

/-- The tag-dispatch switch of `renderNode` (src lines 1069-1138) over the
modelled universe (the `text`, `path`, `polygon` and `image` cases of the
source fall to the silent default here). -/
def dispatchNode (ora : Oracles) (fuel : Nat) (nodeId : Nat) (n : DomNode)
    (tagL : String) (tf : Mat) (defs : Defs) (scope : SvgScope)
    (withinDefs : Bool) (st : RS) (colorMode : Option String) (fc : FillCtx) : RRes :=
  let e := n.el
  if tagL = "svg" then
    let pr := nextChild scope
    let r1 := findDefsKids ora fuel nodeId
      (match hGet st.heap nodeId with | some nn => nn.kids | none => [])
      tf defs pr.1 withinDefs st
    match r1.err with
    | some er => ⟨r1.st, defs, pr.2, some er⟩
    | none =>
      let r2 := renderKids ora fuel
        (match hGet r1.st.heap nodeId with | some nn => nn.kids | none => [])
        tf r1.defs r1.scope withinDefs r1.st
      ⟨r2.st, defs, pr.2, r2.err⟩
  else if tagL = "g" then
    let r1 := findDefsKids ora fuel nodeId
      (match hGet st.heap nodeId with | some nn => nn.kids | none => [])
      tf defs scope withinDefs st
    match r1.err with
    | some _ => r1
    | none =>
      renderKids ora fuel
        (match hGet r1.st.heap nodeId with | some nn => nn.kids | none => [])
        tf r1.defs r1.scope withinDefs r1.st
  else if tagL = "a" ∨ tagL = "marker" then
    renderKids ora fuel
      (match hGet st.heap nodeId with | some nn => nn.kids | none => [])
      tf defs scope withinDefs st
  else if tagL = "defs" then
    renderKids ora fuel
      (match hGet st.heap nodeId with | some nn => nn.kids | none => [])
      tf defs scope true st
  else if tagL = "use" then
    let ur := useFn e tf scope st
    ⟨ur.1, defs, scope, ur.2⟩
  else if tagL = "line" then
    let p1 := multVecMatrix (pfAttr e "x1", pfAttr e "y1") tf
    let p2 := multVecMatrix (pfAttr e "x2", pfAttr e "y2") tf
    ⟨emit st (.linePrim p1.1 p1.2 p2.1 p2.2), defs, scope, none⟩
  else if tagL = "rect" then
    let st := emit st (.setCTM tf)
    ⟨emit st (.roundedRect
        (jsOrNum (pfAttr e "x") (some 0)) (jsOrNum (pfAttr e "y") (some 0))
        (pfAttr e "width") (pfAttr e "height")
        (jsOrNum (pfAttr e "rx") (some 0)) (jsOrNum (pfAttr e "ry") (some 0))
        colorMode fc.gradient fc.gradientMatrix),
     defs, scope, none⟩
  else if tagL = "ellipse" then
    let st := emit st (.setCTM tf)
    ⟨emit st (.ellipsePrim
        (jsOrNum (pfAttr e "cx") (some 0)) (jsOrNum (pfAttr e "cy") (some 0))
        (pfAttr e "rx") (pfAttr e "ry")
        colorMode fc.gradient fc.gradientMatrix),
     defs, scope, none⟩
  else if tagL = "circle" then
    let radius := jsOrNum (pfAttr e "r") (some 0)
    let st := emit st (.setCTM tf)
    ⟨emit st (.ellipsePrim
        (jsOrNum (pfAttr e "cx") (some 0)) (jsOrNum (pfAttr e "cy") (some 0))
        radius radius colorMode fc.gradient fc.gradientMatrix),
     defs, scope, none⟩
  else if tagL = "lineargradient" then
    let children := n.kids.filterMap (fun k => (hGet st.heap k).map (·.el))
    let cr := collectStops children ([], some 0, false)
    let coords := linearCoords e
    let gOp := if cr.2.2 then
        some (jdiv cr.2.1 (some (coords.length : ℚ))) else none
    let gid := scopedId scope (getAttr e "id")
    ⟨emit st (.addPattern gid "axial" coords cr.1 gOp),
     defsSet defs gid nodeId, scope, none⟩
  else if tagL = "radialgradient" then
    let children := n.kids.filterMap (fun k => (hGet st.heap k).map (·.el))
    let cr := collectStops children ([], some 0, false)
    let coords := radialCoords e
    let gOp := if cr.2.2 then
        some (jdiv cr.2.1 (some (coords.length : ℚ))) else none
    let gid := scopedId scope (getAttr e "id")
    ⟨emit st (.addPattern gid "radial" coords cr.1 gOp),
     defsSet defs gid nodeId, scope, none⟩
  else
    ⟨st, defs, scope, none⟩
termination_by (fuel, 2, 0)

/-- `renderChildren` (src lines 890-894): render each child in order,
threading state; an exception aborts the remaining children. -/
def renderKids (ora : Oracles) (fuel : Nat) :
    List Nat → Mat → Defs → SvgScope → Bool → RS → RRes
  | [], _, defs, scope, _, st => ⟨st, defs, scope, none⟩
  | k :: rest, tf, defs, scope, withinDefs, st =>
    let r := renderNode ora fuel k tf defs scope withinDefs st
    match r.err with
    | some _ => r
    | none => renderKids ora fuel rest tf r.defs r.scope withinDefs r.st
termination_by kids _ _ _ _ _ => (fuel, 1, kids.length + 1)

/-- `findAndRenderDefs` (src lines 870-878): over a snapshot of the
parent's children, render each `defs` child and then destructively remove
it from the parent — the source's guard against processing a defs block a
second time during the normal content pass. -/
def findDefsKids (ora : Oracles) (fuel : Nat) (parentId : Nat) :
    List Nat → Mat → Defs → SvgScope → Bool → RS → RRes
  | [], _, defs, scope, _, st => ⟨st, defs, scope, none⟩
  | k :: rest, tf, defs, scope, withinDefs, st =>
    match hGet st.heap k with
    | some kn =>
      if strToLower kn.el.tagName = "defs" then
        let r := renderNode ora fuel k tf defs scope withinDefs st
        match r.err with
        | some _ => r
        | none =>
          let st2 := { r.st with heap := hRemoveKid r.st.heap parentId k }
          findDefsKids ora fuel parentId rest tf r.defs r.scope withinDefs st2
      else findDefsKids ora fuel parentId rest tf defs scope withinDefs st
    | none => findDefsKids ora fuel parentId rest tf defs scope withinDefs st
termination_by kids _ _ _ _ _ => (fuel, 1, kids.length + 1)
end

/-- The options object of the top-level conversion. -/
structure Opts where
  scale : JsNum := none
  xOffset : JsNum := none
  yOffset : JsNum := none
deriving DecidableEq, Repr

/-- `svgElementToPdf` (src lines 1149-1165): save the outer state, apply
scale/offset, render a *deep clone* of the caller's element with an empty
defs map and the root prefix, and restore.  (An exception skips the final
restore and propagates, as in the source.) -/
def svgElementToPdf (ora : Oracles) (fuel : Nat) (elementId : Nat)
    (opts : Opts) (st : RS) : RS × Option JsErr :=
  let k := jsOrNum opts.scale (some 1)
  let xOff := jsOrNum opts.xOffset (some 0)
  let yOff := jsOrNum opts.yOffset (some 0)
  let st := emit st .saveGS
  let st := emit st (.setCTM ⟨k, some 0, some 0, k, xOff, yOff⟩)
  let c := cloneNode fuel st.heap elementId st.fresh
  let st := { st with heap := c.1, fresh := c.2.2 }
  let r := renderNode ora fuel c.2.1 unitMatrix [] ⟨"", 0⟩ false st
  match r.err with
  | some er => (r.st, some er)
  | none => (emit r.st .restoreGS, none)

/-! ## Claims C8 and C9: unresolved references and state balancing -/

/-- A concrete color oracle: only `"red"` parses. -/
def testOra : Oracles := ⟨noTrig, fun s => s = "red"⟩

/-- A rect whose fill references an id that no visible scope defines. -/
def rectBadFill : Elem := ⟨"rect", [("fill", "url(#nope)"), ("x", "0"), ("y", "0"),
  ("width", "10"), ("height", "10")], []⟩

/-- Heap with the single bad rect. -/
def c8Heap : Heap := [(0, ⟨rectBadFill, []⟩)]

/-- Count occurrences of an operation. -/
def countOp (ops : List Op) (o : Op) : Nat := (ops.filter (fun x => x = o)).length

/-- C8, theorem at the failing input.  A `url(#id)` fill whose id has no
match at any visible scope is *not* a no-op: `getFromDefs` returns
`undefined` and the source immediately evaluates `fill.tagName`
(src line 990) — a thrown `TypeError` that aborts the node (and, since it
propagates, the rest of the traversal).  Likewise a `use` element whose
reference is unknown to the form-object registry evaluates
`formObject.width` on `undefined` (src line 701). -/
theorem c8_unresolved_reference_throws :
    resolveFill testOra 9 c8Heap ⟨rectBadFill, []⟩ unitMatrix [] ⟨"", 0⟩ =
      .error .typeErr ∧
    (renderNode testOra 9 0 unitMatrix [] ⟨"", 0⟩ false
      ⟨c8Heap, [], [], [], 1⟩).err = some .typeErr ∧
    (useFn ⟨"use", [("href", "#nope")], []⟩ unitMatrix ⟨"", 0⟩
      ⟨[], [], [], [], 0⟩).2 = some .typeErr := by
  refine ⟨?_, ?_, ?_⟩
  · simp +decide [resolveFill, rectBadFill, getAttrT, getAttr, execUrlRef,
      getFromDefsS, getFromDefs, findPatSplit, lookupDefs, isDigit, isWord]
  · simp +decide [renderNode, renderNodeCore, preamble, dispatchNode, c8Heap, rectBadFill, hGet, subStr,
      computeNodeTransform, getAttr, getAttrT, isFillTag, isStrokeTag, resolveFill,
      execUrlRef, getFromDefsS, getFromDefs, findPatSplit, lookupDefs, isDigit, isWord,
      emit, jsOrStr, strTruthy, unitMatrix, List.lookup, strToLower, lowerChar]
  · simp +decide [useFn, getAttrT, getAttr, jsOrStr, strTruthy, List.lookup]

/-- A rect with a plain (resolvable) fill color. -/
def rectRed : Elem := ⟨"rect", [("fill", "red")], []⟩

/-- The C9 document: a group with two rects; the second rect's fill
reference is unresolvable. -/
def c9Heap : Heap :=
  [(1, ⟨⟨"g", [], []⟩, [2, 3]⟩), (2, ⟨rectRed, []⟩), (3, ⟨rectBadFill, []⟩)]

/-- C9, theorem at the failing input.  The entry action (here
`saveGraphicsState`) runs for the group and for each rect, but the
`TypeError` thrown while resolving the second rect's fill propagates past
the exit code (src lines 1141-1145) of both the rect and the group: the
trace ends with three saves and only one restore, so the claimed pairing
fails on the error path. -/
theorem c9_save_restore_unbalanced_on_error :
    (renderNode testOra 9 1 unitMatrix [] ⟨"", 0⟩ false
      ⟨c9Heap, [], [], [], 4⟩).err = some .typeErr ∧
    countOp (renderNode testOra 9 1 unitMatrix [] ⟨"", 0⟩ false
      ⟨c9Heap, [], [], [], 4⟩).st.ops .saveGS = 3 ∧
    countOp (renderNode testOra 9 1 unitMatrix [] ⟨"", 0⟩ false
      ⟨c9Heap, [], [], [], 4⟩).st.ops .restoreGS = 1 := by
  refine ⟨?_, ?_, ?_⟩ <;>
    simp +decide [renderNode, renderNodeCore, preamble, dispatchNode, renderKids, findDefsKids, c9Heap, rectRed, rectBadFill,
      hGet, subStr, computeNodeTransform, getAttr, getAttrT, isFillTag, isStrokeTag,
      resolveFill, execUrlRef, getFromDefsS, getFromDefs, findPatSplit, lookupDefs,
      isDigit, isWord, emit, jsOrStr, strTruthy, unitMatrix, List.lookup, strToLower,
      lowerChar, testOra, applyStroke, countOp, multVecMatrix, matrixMult, pfAttr,
      jsOrNum, jsTruthy, jadd, jmul, getUntransformedBBox, toNumAttr, jmin, jmax,
      jsub, vbIdx, idx, jsParseFloatL, floatMantissa, floatExpPart, digitsVal, isWs,
      jsParseFloat]

/-! ## Claim C10: the caller's element is never mutated

The only tree mutation in the modelled traversal is `findAndRenderDefs`'s
removal of processed `defs` children, and it always targets the node being
traversed.  Since `svgElementToPdf` renders `element.cloneNode(true)` —
whose nodes all carry fresh ids — the caller's tree (ids below the fresh
counter) is untouched.  The development below proves this as a frame
property over the heap. -/

/-- Projections of the state helpers preserve the heap. -/
@[simp] theorem emit_heap (st : RS) (op : Op) : (emit st op).heap = st.heap := rfl

@[simp] theorem applyStroke_heap (ora : Oracles) (e : Elem) (cm : Option String)
    (st : RS) : (applyStroke ora e cm st).1.heap = st.heap := by
  unfold applyStroke
  split
  · repeat' split
    all_goals simp
  · rfl

@[simp] theorem useFn_heap (e : Elem) (tf : Mat) (scope : SvgScope) (st : RS) :
    (useFn e tf scope st).1.heap = st.heap := by
  unfold useFn
  cases h1 : jsOrStr (getAttrT e "href") (getAttrT e "xlink:href") with
  | none => rfl
  | some u =>
    cases h2 : List.lookup (scope.str ++ u.drop 1) st.formObjs with
    | none => simp [h2]
    | some wh => simp [h2]

/-- `hGet` over an update: other keys unchanged. -/
theorem hGet_hSet_ne (h : Heap) (i : Nat) (n : DomNode) (k : Nat) (hk : k ≠ i) :
    hGet (hSet h i n) k = hGet h k := by
  induction h with
  | nil => rfl
  | cons kv rest ih =>
    obtain ⟨a, b⟩ := kv
    by_cases hai : a = i
    · subst hai
      have hh : hSet ((a, b) :: rest) a n = (a, n) :: hSet rest a n := by simp [hSet]
      rw [hh]
      show (if a = k then some n else hGet (hSet rest a n) k) =
        if a = k then some b else hGet rest k
      rw [if_neg fun hh2 => hk hh2.symm, if_neg fun hh2 => hk hh2.symm]
      exact ih
    · have hh : hSet ((a, b) :: rest) i n = (a, b) :: hSet rest i n := by simp [hSet, hai]
      rw [hh]
      show (if a = k then some b else hGet (hSet rest i n) k) =
        if a = k then some b else hGet rest k
      by_cases hak : a = k
      · rw [if_pos hak, if_pos hak]
      · rw [if_neg hak, if_neg hak]
        exact ih

/-- `hGet` over an update: any hit is the new node at the updated key or
an untouched entry. -/
theorem hGet_hSet_cases (h : Heap) (i : Nat) (n : DomNode) (k : Nat) (m : DomNode)
    (hm : hGet (hSet h i n) k = some m) : (k = i ∧ m = n) ∨ hGet h k = some m := by
  induction h with
  | nil => simp [hSet, hGet] at hm
  | cons kv rest ih =>
    obtain ⟨a, b⟩ := kv
    by_cases hai : a = i
    · subst hai
      have hh : hSet ((a, b) :: rest) a n = (a, n) :: hSet rest a n := by simp [hSet]
      rw [hh] at hm
      have hm2 : (if a = k then some n else hGet (hSet rest a n) k) = some m := hm
      by_cases hak : a = k
      · rw [if_pos hak] at hm2
        cases hm2
        exact Or.inl ⟨hak.symm, rfl⟩
      · rw [if_neg hak] at hm2
        rcases ih hm2 with h1 | h2
        · exact Or.inl h1
        · refine Or.inr ?_
          show (if a = k then some b else hGet rest k) = some m
          rw [if_neg hak]
          exact h2
    · have hh : hSet ((a, b) :: rest) i n = (a, b) :: hSet rest i n := by simp [hSet, hai]
      rw [hh] at hm
      have hm2 : (if a = k then some b else hGet (hSet rest i n) k) = some m := hm
      by_cases hak : a = k
      · rw [if_pos hak] at hm2
        refine Or.inr ?_
        show (if a = k then some b else hGet rest k) = some m
        rw [if_pos hak]
        exact hm2
      · rw [if_neg hak] at hm2
        rcases ih hm2 with h1 | h2
        · exact Or.inl h1
        · refine Or.inr ?_
          show (if a = k then some b else hGet rest k) = some m
          rw [if_neg hak]
          exact h2

/-- `hGet` over an append: the front heap wins. -/
theorem hGet_append (h t : Heap) (k : Nat) :
    hGet (h ++ t) k = match hGet h k with | some v => some v | none => hGet t k := by
  induction h with
  | nil => simp [hGet]
  | cons kv rest ih =>
    obtain ⟨a, b⟩ := kv
    by_cases hak : a = k
    · simp [hGet, if_pos hak]
    · simp only [List.cons_append, hGet, if_neg hak]
      exact ih

/-- Ids at and above `c` only reference ids at and above `c`. -/
def closedAbove (c : Nat) (h : Heap) : Prop :=
  ∀ k n, hGet h k = some n → c ≤ k → ∀ x ∈ n.kids, c ≤ x

/-- The frame relation: lookups below `c` agree, and the result heap is
closed above `c`. -/
def HeapOK (c : Nat) (h h' : Heap) : Prop :=
  (∀ k, k < c → hGet h' k = hGet h k) ∧ closedAbove c h'

theorem HeapOK.refl {c : Nat} {h : Heap} (hcl : closedAbove c h) : HeapOK c h h :=
  ⟨fun _ _ => rfl, hcl⟩

theorem HeapOK.trans {c : Nat} {h1 h2 h3 : Heap}
    (a : HeapOK c h1 h2) (b : HeapOK c h2 h3) : HeapOK c h1 h3 :=
  ⟨fun k hk => (b.1 k hk).trans (a.1 k hk), b.2⟩

/-- Removing a child from a node at or above `c` is invisible below `c`
and preserves closure. -/
theorem HeapOK.removeKid {c : Nat} {h : Heap} (p x : Nat)
    (hp : c ≤ p) (hcl : closedAbove c h) : HeapOK c h (hRemoveKid h p x) := by
  constructor
  · intro k hk
    unfold hRemoveKid
    cases hGet h p with
    | none => rfl
    | some pn => exact hGet_hSet_ne h p _ k (by omega)
  · intro k n hkn hck y hy
    unfold hRemoveKid at hkn
    cases hhp : hGet h p with
    | none =>
      rw [hhp] at hkn
      exact hcl k n hkn hck y hy
    | some pn =>
      rw [hhp] at hkn
      rcases hGet_hSet_cases _ _ _ _ _ hkn with ⟨rfl, rfl⟩ | hold
      · exact hcl k pn hhp hck y (List.mem_of_mem_erase hy)
      · exact hcl k n hold hck y hy

/-- What `cloneNode` guarantees about the heap: it only appends entries,
every appended entry's id and every id referenced by an appended entry is
at or above the starting fresh counter, and the counters advance. -/
def CloneNodeSpec (fuel : Nat) : Prop :=
  ∀ (h : Heap) (i fresh : Nat),
    ∃ t, (cloneNode fuel h i fresh).1 = h ++ t ∧
      (∀ kv ∈ t, fresh ≤ kv.1 ∧ ∀ x ∈ kv.2.kids, fresh ≤ x) ∧
      fresh < (cloneNode fuel h i fresh).2.2 ∧
      fresh ≤ (cloneNode fuel h i fresh).2.1

/-- The corresponding guarantee for `cloneKids`. -/
def CloneKidsSpec (fuel : Nat) : Prop :=
  ∀ (h : Heap) (ids : List Nat) (fresh : Nat),
    ∃ t, (cloneKids fuel h ids fresh).1 = h ++ t ∧
      (∀ kv ∈ t, fresh ≤ kv.1 ∧ ∀ x ∈ kv.2.kids, fresh ≤ x) ∧
      fresh ≤ (cloneKids fuel h ids fresh).2.2 ∧
      (∀ x ∈ (cloneKids fuel h ids fresh).2.1, fresh ≤ x)

theorem cloneKids_spec_of (fuel : Nat) (hnode : CloneNodeSpec fuel) :
    CloneKidsSpec fuel := by
  intro h ids
  induction ids generalizing h with
  | nil =>
    intro fresh
    have h0 : cloneKids fuel h [] fresh = (h, [], fresh) := by
      rw [cloneKids]
    rw [h0]
    exact ⟨[], by simp, by simp, le_refl _, by simp⟩
  | cons i rest ih =>
    intro fresh
    have h0 : cloneKids fuel h (i :: rest) fresh =
        ((cloneKids fuel (cloneNode fuel h i fresh).1 rest (cloneNode fuel h i fresh).2.2).1,
         (cloneNode fuel h i fresh).2.1 ::
           (cloneKids fuel (cloneNode fuel h i fresh).1 rest (cloneNode fuel h i fresh).2.2).2.1,
         (cloneKids fuel (cloneNode fuel h i fresh).1 rest (cloneNode fuel h i fresh).2.2).2.2) := by
      rw [cloneKids]
    rw [h0]
    obtain ⟨t1, ht1, hb1, hf1, hid1⟩ := hnode h i fresh
    obtain ⟨t2, ht2, hb2, hf2, hids2⟩ := ih (cloneNode fuel h i fresh).1
      (cloneNode fuel h i fresh).2.2
    refine ⟨t1 ++ t2, ?_, ?_, ?_, ?_⟩
    · rw [ht2, ht1, List.append_assoc]
    · intro kv hkv
      rcases List.mem_append.mp hkv with hm | hm
      · exact hb1 kv hm
      · obtain ⟨ha, hb⟩ := hb2 kv hm
        exact ⟨le_trans (le_of_lt hf1) ha, fun x hx => le_trans (le_of_lt hf1) (hb x hx)⟩
    · exact le_trans (le_of_lt hf1) hf2
    · intro x hx
      rcases List.mem_cons.mp hx with rfl | hm
      · exact hid1
      · exact le_trans (le_of_lt hf1) (hids2 x hm)

theorem clone_spec : ∀ fuel, CloneNodeSpec fuel ∧ CloneKidsSpec fuel := by
  intro fuel
  induction fuel with
  | zero =>
    have hnode : CloneNodeSpec 0 := by
      intro h i fresh
      have h0 : cloneNode 0 h i fresh = (h, fresh, fresh + 1) := by
        rw [cloneNode]
      rw [h0]
      exact ⟨[], by simp, by simp, Nat.lt_succ_self _, le_refl _⟩
    exact ⟨hnode, cloneKids_spec_of 0 hnode⟩
  | succ f ih =>
    have hnode : CloneNodeSpec (f + 1) := by
      intro h i fresh
      have hkids := cloneKids_spec_of f ih.1
      cases hg : hGet h i with
      | none =>
        have h0 : cloneNode (f + 1) h i fresh = (h, fresh, fresh + 1) := by
          rw [cloneNode, hg]
        rw [h0]
        exact ⟨[], by simp, by simp, Nat.lt_succ_self _, le_refl _⟩
      | some n =>
        have h0 : cloneNode (f + 1) h i fresh =
            ((cloneKids f h n.kids fresh).1 ++
              [((cloneKids f h n.kids fresh).2.2,
                { n with kids := (cloneKids f h n.kids fresh).2.1 })],
             (cloneKids f h n.kids fresh).2.2,
             (cloneKids f h n.kids fresh).2.2 + 1) := by
          rw [cloneNode, hg]
        rw [h0]
        obtain ⟨t1, ht1, hb1, hf1, hids1⟩ := hkids h n.kids fresh
        refine ⟨t1 ++ [((cloneKids f h n.kids fresh).2.2,
          { n with kids := (cloneKids f h n.kids fresh).2.1 })], ?_, ?_, ?_, ?_⟩
        · rw [ht1, List.append_assoc]
        · intro kv hkv
          rcases List.mem_append.mp hkv with hm | hm
          · exact hb1 kv hm
          · rcases List.mem_singleton.mp hm with rfl
            exact ⟨hf1, fun x hx => hids1 x hx⟩
        · show fresh < (cloneKids f h n.kids fresh).2.2 + 1
          omega
        · show fresh ≤ (cloneKids f h n.kids fresh).2.2
          exact hf1
    exact ⟨hnode, cloneKids_spec_of (f + 1) hnode⟩

/-- Frame statement for `renderNode` at a given fuel: rendering a node
whose id is at or above `c`, over a heap closed above `c`, leaves every
heap entry below `c` unchanged and preserves closure. -/
def NodeFrame (ora : Oracles) (c fuel : Nat) : Prop :=
  ∀ nodeId ctm defs scope wd st, c ≤ nodeId → closedAbove c st.heap →
    HeapOK c st.heap (renderNode ora fuel nodeId ctm defs scope wd st).st.heap

/-- Frame statement for `renderKids`. -/
def KidsFrame (ora : Oracles) (c fuel : Nat) : Prop :=
  ∀ kids tf defs scope wd st, (∀ x ∈ kids, c ≤ x) → closedAbove c st.heap →
    HeapOK c st.heap (renderKids ora fuel kids tf defs scope wd st).st.heap

/-- Frame statement for `findDefsKids`. -/
def DefsFrame (ora : Oracles) (c fuel : Nat) : Prop :=
  ∀ parentId kids tf defs scope wd st, c ≤ parentId → (∀ x ∈ kids, c ≤ x) →
    closedAbove c st.heap →
    HeapOK c st.heap (findDefsKids ora fuel parentId kids tf defs scope wd st).st.heap

/-- Frame statement for `dispatchNode`. -/
def DispatchFrame (ora : Oracles) (c fuel : Nat) : Prop :=
  ∀ nodeId n tagL tf defs scope wd st colorMode fc, c ≤ nodeId →
    closedAbove c st.heap →
    HeapOK c st.heap
      (dispatchNode ora fuel nodeId n tagL tf defs scope wd st colorMode fc).st.heap

theorem kidsFrame_of (ora : Oracles) (c fuel : Nat) (hnode : NodeFrame ora c fuel) :
    KidsFrame ora c fuel := by
  intro kids
  induction kids with
  | nil =>
    intro tf defs scope wd st _ hcl
    have h0 : renderKids ora fuel [] tf defs scope wd st = ⟨st, defs, scope, none⟩ := by
      rw [renderKids]
    rw [h0]
    exact HeapOK.refl hcl
  | cons k rest ih =>
    intro tf defs scope wd st hx hcl
    have h1 := hnode k tf defs scope wd st (hx k (by simp)) hcl
    have h0 : renderKids ora fuel (k :: rest) tf defs scope wd st =
        (match (renderNode ora fuel k tf defs scope wd st).err with
         | some _ => renderNode ora fuel k tf defs scope wd st
         | none => renderKids ora fuel rest tf
             (renderNode ora fuel k tf defs scope wd st).defs
             (renderNode ora fuel k tf defs scope wd st).scope wd
             (renderNode ora fuel k tf defs scope wd st).st) := by
      rw [renderKids]
    rw [h0]
    cases herr : (renderNode ora fuel k tf defs scope wd st).err with
    | some er => exact h1
    | none =>
      have h2 := ih tf (renderNode ora fuel k tf defs scope wd st).defs
        (renderNode ora fuel k tf defs scope wd st).scope wd
        (renderNode ora fuel k tf defs scope wd st).st
        (fun x hxm => hx x (by simp [hxm])) h1.2
      exact HeapOK.trans h1 h2

theorem defsFrame_of (ora : Oracles) (c fuel : Nat) (hnode : NodeFrame ora c fuel) :
    DefsFrame ora c fuel := by
  intro parentId kids
  induction kids with
  | nil =>
    intro tf defs scope wd st _ _ hcl
    have h0 : findDefsKids ora fuel parentId [] tf defs scope wd st =
        ⟨st, defs, scope, none⟩ := by
      rw [findDefsKids]
    rw [h0]
    exact HeapOK.refl hcl
  | cons k rest ih =>
    intro tf defs scope wd st hp hx hcl
    cases hg : hGet st.heap k with
    | none =>
      have h0 : findDefsKids ora fuel parentId (k :: rest) tf defs scope wd st =
          findDefsKids ora fuel parentId rest tf defs scope wd st := by
        rw [findDefsKids]
        simp only [hg]
      rw [h0]
      exact ih tf defs scope wd st hp (fun x hxm => hx x (by simp [hxm])) hcl
    | some kn =>
      by_cases htag : strToLower kn.el.tagName = "defs"
      · have h1 := hnode k tf defs scope wd st (hx k (by simp)) hcl
        have h0 : findDefsKids ora fuel parentId (k :: rest) tf defs scope wd st =
            (match (renderNode ora fuel k tf defs scope wd st).err with
             | some _ => renderNode ora fuel k tf defs scope wd st
             | none => findDefsKids ora fuel parentId rest tf
                 (renderNode ora fuel k tf defs scope wd st).defs
                 (renderNode ora fuel k tf defs scope wd st).scope wd
                 { (renderNode ora fuel k tf defs scope wd st).st with
                   heap := hRemoveKid
                     (renderNode ora fuel k tf defs scope wd st).st.heap parentId k }) := by
          rw [findDefsKids]
          simp only [hg]
          rw [if_pos htag]
        rw [h0]
        cases herr : (renderNode ora fuel k tf defs scope wd st).err with
        | some er => exact h1
        | none =>
          have hrem : HeapOK c (renderNode ora fuel k tf defs scope wd st).st.heap
              (hRemoveKid (renderNode ora fuel k tf defs scope wd st).st.heap parentId k) :=
            HeapOK.removeKid parentId k hp h1.2
          have h2 := ih tf (renderNode ora fuel k tf defs scope wd st).defs
            (renderNode ora fuel k tf defs scope wd st).scope wd
            { (renderNode ora fuel k tf defs scope wd st).st with
              heap := hRemoveKid (renderNode ora fuel k tf defs scope wd st).st.heap parentId k }
            hp (fun x hxm => hx x (by simp [hxm])) hrem.2
          exact HeapOK.trans h1 (HeapOK.trans hrem h2)
      · have h0 : findDefsKids ora fuel parentId (k :: rest) tf defs scope wd st =
            findDefsKids ora fuel parentId rest tf defs scope wd st := by
          rw [findDefsKids]
          simp only [hg]
          rw [if_neg htag]
        rw [h0]
        exact ih tf defs scope wd st hp (fun x hxm => hx x (by simp [hxm])) hcl

/-- The child-id list read for recursion is bounded by `c` whenever the
node id is and the heap is closed. -/
theorem kids_bound (c : Nat) (h : Heap) (nodeId : Nat) (hc : c ≤ nodeId)
    (hcl : closedAbove c h) :
    ∀ x ∈ (match hGet h nodeId with | some nn => nn.kids | none => []), c ≤ x := by
  cases hgn : hGet h nodeId with
  | some nn =>
    intro x hx
    exact hcl nodeId nn hgn hc x hx
  | none => intro x hx; simp at hx

theorem dispatchFrame_of (ora : Oracles) (c fuel : Nat)
    (hkids : KidsFrame ora c fuel) (hdefs : DefsFrame ora c fuel) :
    DispatchFrame ora c fuel := by
  intro nodeId n tagL tf defs scope wd st colorMode fc hc hcl
  rw [dispatchNode]
  by_cases h1 : tagL = "svg"
  · rw [if_pos h1]
    have hr1 := hdefs nodeId
      (match hGet st.heap nodeId with | some nn => nn.kids | none => [])
      tf defs (nextChild scope).1 wd st hc (kids_bound c st.heap nodeId hc hcl) hcl
    cases herr : (findDefsKids ora fuel nodeId
        (match hGet st.heap nodeId with | some nn => nn.kids | none => [])
        tf defs (nextChild scope).1 wd st).err with
    | some er =>
      simp only [herr]
      exact hr1
    | none =>
      simp only [herr]
      have hr2 := hkids
        (match hGet (findDefsKids ora fuel nodeId
          (match hGet st.heap nodeId with | some nn => nn.kids | none => [])
          tf defs (nextChild scope).1 wd st).st.heap nodeId with
         | some nn => nn.kids | none => [])
        tf
        (findDefsKids ora fuel nodeId
          (match hGet st.heap nodeId with | some nn => nn.kids | none => [])
          tf defs (nextChild scope).1 wd st).defs
        (findDefsKids ora fuel nodeId
          (match hGet st.heap nodeId with | some nn => nn.kids | none => [])
          tf defs (nextChild scope).1 wd st).scope
        wd
        (findDefsKids ora fuel nodeId
          (match hGet st.heap nodeId with | some nn => nn.kids | none => [])
          tf defs (nextChild scope).1 wd st).st
        (kids_bound c _ nodeId hc hr1.2) hr1.2
      exact HeapOK.trans hr1 hr2
  · rw [if_neg h1]
    by_cases h2 : tagL = "g"
    · rw [if_pos h2]
      have hr1 := hdefs nodeId
        (match hGet st.heap nodeId with | some nn => nn.kids | none => [])
        tf defs scope wd st hc (kids_bound c st.heap nodeId hc hcl) hcl
      cases herr : (findDefsKids ora fuel nodeId
          (match hGet st.heap nodeId with | some nn => nn.kids | none => [])
          tf defs scope wd st).err with
      | some er =>
        simp only [herr]
        exact hr1
      | none =>
        simp only [herr]
        have hr2 := hkids
          (match hGet (findDefsKids ora fuel nodeId
            (match hGet st.heap nodeId with | some nn => nn.kids | none => [])
            tf defs scope wd st).st.heap nodeId with
           | some nn => nn.kids | none => [])
          tf
          (findDefsKids ora fuel nodeId
            (match hGet st.heap nodeId with | some nn => nn.kids | none => [])
            tf defs scope wd st).defs
          (findDefsKids ora fuel nodeId
            (match hGet st.heap nodeId with | some nn => nn.kids | none => [])
            tf defs scope wd st).scope
          wd
          (findDefsKids ora fuel nodeId
            (match hGet st.heap nodeId with | some nn => nn.kids | none => [])
            tf defs scope wd st).st
          (kids_bound c _ nodeId hc hr1.2) hr1.2
        exact HeapOK.trans hr1 hr2
    · rw [if_neg h2]
      by_cases h3 : tagL = "a" ∨ tagL = "marker"
      · rw [if_pos h3]
        exact hkids _ tf defs scope wd st (kids_bound c st.heap nodeId hc hcl) hcl
      · rw [if_neg h3]
        by_cases h4 : tagL = "defs"
        · rw [if_pos h4]
          exact hkids _ tf defs scope true st (kids_bound c st.heap nodeId hc hcl) hcl
        · rw [if_neg h4]
          by_cases h5 : tagL = "use"
          · rw [if_pos h5]
            have huse : ((useFn n.el tf scope st).1).heap = st.heap :=
              useFn_heap n.el tf scope st
            simp only []
            rw [huse]
            exact HeapOK.refl hcl
          · rw [if_neg h5]
            by_cases h6 : tagL = "line"
            · rw [if_pos h6]
              exact HeapOK.refl hcl
            · rw [if_neg h6]
              by_cases h7 : tagL = "rect"
              · rw [if_pos h7]
                exact HeapOK.refl hcl
              · rw [if_neg h7]
                by_cases h8 : tagL = "ellipse"
                · rw [if_pos h8]
                  exact HeapOK.refl hcl
                · rw [if_neg h8]
                  by_cases h9 : tagL = "circle"
                  · rw [if_pos h9]
                    exact HeapOK.refl hcl
                  · rw [if_neg h9]
                    by_cases h10 : tagL = "lineargradient"
                    · rw [if_pos h10]
                      exact HeapOK.refl hcl
                    · rw [if_neg h10]
                      by_cases h11 : tagL = "radialgradient"
                      · rw [if_pos h11]
                        exact HeapOK.refl hcl
                      · rw [if_neg h11]
                        exact HeapOK.refl hcl

/-- The entry/fill/stroke prologue never touches the heap: it only reads
it (paint resolution) and emits operations. -/
theorem preamble_heap (ora : Oracles) (fuel : Nat) (n : DomNode) (tagL : String)
    (ntf ctm : Mat) (wd : Bool) (defs : Defs) (scope : SvgScope) (st : RS) :
    (preamble ora fuel n tagL ntf ctm wd defs scope st).st.heap = st.heap := by
  unfold preamble
  by_cases hcond : (wd && !subStr "lineargradient,radialgradient".toList tagL.toList) = true
  · simp only [if_pos hcond, emit]
    by_cases hfill : isFillTag tagL = true
    · simp only [if_pos hfill]
      cases hres : resolveFill ora fuel st.heap n unitMatrix defs scope with
      | error er => simp [hres]
      | ok fc =>
        simp only [hres]
        repeat' (first | split | simp [emit])
    · simp only [if_neg hfill]
      repeat' (first | split | simp [emit])
  · simp only [if_neg hcond, emit]
    by_cases hfill : isFillTag tagL = true
    · simp only [if_pos hfill]
      cases hres : resolveFill ora fuel st.heap n (matrixMult ntf ctm) defs scope with
      | error er => simp [hres]
      | ok fc =>
        simp only [hres]
        repeat' (first | split | simp [emit])
    · simp only [if_neg hfill]
      repeat' (first | split | simp [emit])

/-- A `hGet` hit is a member of the association list. -/
theorem hGet_mem (h : Heap) (k : Nat) (n : DomNode) (hg : hGet h k = some n) :
    (k, n) ∈ h := by
  induction h with
  | nil => cases hg
  | cons kv rest ih =>
    obtain ⟨a, b⟩ := kv
    have hg2 : (if a = k then some b else hGet rest k) = some n := hg
    by_cases hak : a = k
    · rw [if_pos hak] at hg2
      cases hg2
      subst hak
      exact List.mem_cons_self _ _
    · rw [if_neg hak] at hg2
      exact List.mem_cons_of_mem _ (ih hg2)

/-- A heap whose keys all sit at or above `f` has no entry below `f`. -/
theorem hGet_none_of_lt (t : Heap) (f k : Nat) (hb : ∀ kv ∈ t, f ≤ kv.1)
    (hk : k < f) : hGet t k = none := by
  induction t with
  | nil => rfl
  | cons kv rest ih =>
    obtain ⟨a, b⟩ := kv
    have ha := hb (a, b) (by simp)
    show (if a = k then some b else hGet rest k) = none
    rw [if_neg (by simp at ha; omega)]
    exact ih fun kv2 hkv2 => hb kv2 (by simp [hkv2])

theorem coreFrame_of (ora : Oracles) (c fuel : Nat) (hd : DispatchFrame ora c fuel) :
    ∀ nodeId n ctm defs scope wd st, c ≤ nodeId → closedAbove c st.heap →
      HeapOK c st.heap (renderNodeCore ora fuel nodeId n ctm defs scope wd st).st.heap := by
  intro nodeId n ctm defs scope wd st hc hcl
  rw [renderNodeCore]
  cases hct : computeNodeTransform ora.tg fuel n with
  | none =>
    simp only [hct]
    exact HeapOK.refl hcl
  | some ntf =>
    simp only [hct]
    generalize hP : preamble ora fuel n (strToLower n.el.tagName) ntf ctm wd defs scope st = p
    have hph : p.st.heap = st.heap := by
      rw [← hP]
      exact preamble_heap ora fuel n (strToLower n.el.tagName) ntf ctm wd defs scope st
    cases hpe : p.err with
    | some er =>
      simp only [hpe]
      show HeapOK c st.heap p.st.heap
      rw [hph]
      exact HeapOK.refl hcl
    | none =>
      simp only [hpe]
      generalize hR : dispatchNode ora fuel nodeId n (strToLower n.el.tagName) p.tf defs
        scope p.withinDefs p.st p.colorMode p.fc = r
      have hdap : HeapOK c st.heap r.st.heap := by
        rw [← hR]
        have h := hd nodeId n (strToLower n.el.tagName) p.tf defs scope p.withinDefs p.st
          p.colorMode p.fc hc (by rw [hph]; exact hcl)
        rw [hph] at h
        exact h
      cases herr : r.err with
      | some er =>
        simp only [herr]
        exact hdap
      | none =>
        simp only [herr]
        by_cases htif : p.tif = true
        · rw [if_pos htif]
          exact hdap
        · rw [if_neg htif]
          exact hdap

theorem nodeFrame_zero (ora : Oracles) (c : Nat) : NodeFrame ora c 0 := by
  intro nodeId ctm defs scope wd st _ hcl
  have h0 : renderNode ora 0 nodeId ctm defs scope wd st =
      ⟨st, defs, scope, some .outOfFuel⟩ := by
    rw [renderNode]
  rw [h0]
  exact HeapOK.refl hcl

theorem nodeFrame_succ (ora : Oracles) (c fuel : Nat) (hnode : NodeFrame ora c fuel) :
    NodeFrame ora c (fuel + 1) := by
  have hd := dispatchFrame_of ora c fuel (kidsFrame_of ora c fuel hnode)
    (defsFrame_of ora c fuel hnode)
  intro nodeId ctm defs scope wd st hc hcl
  have h0 : renderNode ora (fuel + 1) nodeId ctm defs scope wd st =
      (match hGet st.heap nodeId with
       | none => ⟨st, defs, scope, some .typeErr⟩
       | some n => renderNodeCore ora fuel nodeId n ctm defs scope wd st) := by
    rw [renderNode]
  rw [h0]
  cases hg : hGet st.heap nodeId with
  | none =>
    simp only [hg]
    exact HeapOK.refl hcl
  | some n =>
    simp only [hg]
    exact coreFrame_of ora c fuel hd nodeId n ctm defs scope wd st hc hcl

/-- The frame property holds at every fuel. -/
theorem render_frame (ora : Oracles) (c fuel : Nat) : NodeFrame ora c fuel := by
  induction fuel with
  | zero => exact nodeFrame_zero ora c
  | succ f ih => exact nodeFrame_succ ora c f ih

/-- **C10.**  The top-level conversion never mutates the caller's
document: `svgElementToPdf` renders `element.cloneNode(true)`, whose
nodes all carry fresh ids, so the destructive `removeChild` performed on
processed `defs` blocks during definition discovery only ever targets the
clone.  Formally: if every node of the caller's document sits below the
fresh-id counter, then after the conversion every such node is exactly
what it was before. -/
theorem c10_clone_shields_caller_tree (ora : Oracles) (fuel : Nat)
    (elementId : Nat) (opts : Opts) (st : RS)
    (hkeys : ∀ kv ∈ st.heap, kv.1 < st.fresh) :
    ∀ k, k < st.fresh →
      hGet (svgElementToPdf ora fuel elementId opts st).1.heap k = hGet st.heap k := by
  intro k hk
  have hcl : closedAbove st.fresh st.heap := by
    intro a nn hga hfa x hx
    exact absurd (hkeys (a, nn) (hGet_mem st.heap a nn hga)) (by omega)
  obtain ⟨t, ht, hb, hflt, hfid⟩ := (clone_spec fuel).1 st.heap elementId st.fresh
  have hheap1 : ∀ j, j < st.fresh →
      hGet (cloneNode fuel st.heap elementId st.fresh).1 j = hGet st.heap j := by
    intro j hj
    rw [ht, hGet_append]
    cases hgj : hGet st.heap j with
    | some v => rfl
    | none => exact hGet_none_of_lt t st.fresh j (fun kv hkv => (hb kv hkv).1) hj
  have hcl1 : closedAbove st.fresh (cloneNode fuel st.heap elementId st.fresh).1 := by
    intro a nn hga hfa x hx
    rw [ht, hGet_append] at hga
    cases hgs : hGet st.heap a with
    | some v =>
      rw [hgs] at hga
      exact absurd (hkeys (a, v) (hGet_mem st.heap a v hgs)) (by omega)
    | none =>
      rw [hgs] at hga
      have hga2 : hGet t a = some nn := hga
      exact (hb (a, nn) (hGet_mem t a nn hga2)).2 x hx
  have hfr := render_frame ora st.fresh fuel
    (cloneNode fuel st.heap elementId st.fresh).2.1
    unitMatrix [] ⟨"", 0⟩ false
    { { emit (emit st .saveGS) (.setCTM ⟨jsOrNum opts.scale (some 1), some 0, some 0,
        jsOrNum opts.scale (some 1), jsOrNum opts.xOffset (some 0),
        jsOrNum opts.yOffset (some 0)⟩) with
        heap := (cloneNode fuel st.heap elementId st.fresh).1 } with
      fresh := (cloneNode fuel st.heap elementId st.fresh).2.2 }
    hfid hcl1
  have hres : (svgElementToPdf ora fuel elementId opts st).1.heap =
      (renderNode ora fuel (cloneNode fuel st.heap elementId st.fresh).2.1
        unitMatrix [] ⟨"", 0⟩ false
        { { emit (emit st .saveGS) (.setCTM ⟨jsOrNum opts.scale (some 1), some 0, some 0,
            jsOrNum opts.scale (some 1), jsOrNum opts.xOffset (some 0),
            jsOrNum opts.yOffset (some 0)⟩) with
            heap := (cloneNode fuel st.heap elementId st.fresh).1 } with
          fresh := (cloneNode fuel st.heap elementId st.fresh).2.2 }).st.heap := by
    simp only [svgElementToPdf]
    split
    · rfl
    · rfl
  rw [hres]
  rw [hfr.1 k hk]
  exact hheap1 k hk

/-- The C10 frame theorem at a concrete one-node document: the caller's
node 0 reads back unchanged after conversion. -/
theorem c10_clone_shields_caller_tree_witness :
    (∀ kv ∈ ([(0, ⟨⟨"g", [], []⟩, []⟩)] : Heap), kv.1 < 1) ∧
    hGet (svgElementToPdf testOra 9 0 {}
        ⟨[(0, ⟨⟨"g", [], []⟩, []⟩)], [], [], [], 1⟩).1.heap 0 =
      hGet ([(0, ⟨⟨"g", [], []⟩, []⟩)] : Heap) 0 :=
  ⟨by decide, c10_clone_shields_caller_tree testOra 9 0 {}
    ⟨[(0, ⟨⟨"g", [], []⟩, []⟩)], [], [], [], 1⟩ (by decide) 0 (by decide)⟩

end SvgToPdf
